import Mathlib

/-!
# Shallow embedding of the FURI router (`src/lib/furi-router.ts`)

This file models the route-table construction and matching engine of the
FURI HTTP router: classification of URI patterns as static or dynamic
(`buildRequestMap`), the partition-bucket data model, the two matching
strategies (`fastPathMatch` positional matching and regex matching through
`attachPathParamsToRequestIfExists`), request dispatch
(`processHTTPMethod`), and router merging (`mergeRouterMaps`, prefix
mounting).

Handlers are modelled as records carrying an identifier and a fixed
behaviour (return a truthy/falsy value, or raise an exception); request
execution is modelled by explicit state passing over an `HttpState`
record that tracks the parameter bag, the trace of executed handler
identifiers, and the response fields.  JavaScript objects used as maps
are modelled as association lists with first-match lookup
(`assocLookup`); property assignment prepends to the parameter bag, so
first-match lookup sees the most recent write, matching JavaScript
overwrite semantics.
-/

namespace Furi

/-- Result of invoking a handler: a truthy/falsy return value, or a thrown
exception. -/
inductive HRes where
  | ret (truthy : Bool)
  | exn
deriving DecidableEq, Repr

/-- A handler function, modelled by an identifier (to observe execution
order) and its fixed behaviour. -/
structure Handler where
  id : Nat
  res : HRes
deriving DecidableEq, Repr

/-- One registered dynamic pattern (`NamedRouteCallback` in the source):
regex key, parameter names, handler chain, raw path segments, and the
flag forcing regex matching. -/
structure RouteEntry where
  key : String
  params : List String
  callbacks : List Handler
  pathNames : List String
  useRegex : Bool
deriving DecidableEq, Repr

/-- Per-HTTP-method route table (`RouteMap` in the source).  Values of
`staticRouteMap` are the `callbacks` field of the source's
`StaticRouteCallback` record. -/
structure RouteMap where
  staticRouteMap : List (String × List Handler)
  namedRoutePartitionMap : List (Nat × List RouteEntry)
deriving DecidableEq, Repr

/-- The empty route table a router starts with. -/
def RouteMap.empty : RouteMap := ⟨[], []⟩

/-- First-match association-list lookup, modelling JavaScript property
access `m[k]` (`undefined` becomes `none`). -/
def assocLookup {κ α : Type} [DecidableEq κ] (k : κ) : List (κ × α) → Option α
  | [] => none
  | p :: rest => if p.1 = k then some p.2 else assocLookup k rest

/-- Overwrite the value stored under key `k` (the key is assumed
present), modelling in-place property update. -/
def updateKey {κ α : Type} [DecidableEq κ] (k : κ) (v : α) (m : List (κ × α)) :
    List (κ × α) :=
  m.map fun p => if p.1 = k then (p.1, v) else p

/-- Split a character list at every occurrence of `sep`, modelling
JavaScript `String.prototype.split` with a single-character separator
(`"".split(c)` gives `[""]`, separators at the ends give empty pieces). -/
def splitOnChar (sep : Char) : List Char → List (List Char)
  | [] => [[]]
  | c :: cs =>
    if c = sep then [] :: splitOnChar sep cs
    else
      match splitOnChar sep cs with
      | r :: rs => (c :: r) :: rs
      | [] => [[c]]

/-- String-level split on a single character. -/
def splitStr (sep : Char) (s : String) : List String :=
  (splitOnChar sep s.data).map fun l => ⟨l⟩

/-- Join character lists with a separator character. -/
def joinChar (sep : Char) : List (List Char) → List Char
  | [] => []
  | [l] => l
  | l :: rest => l ++ sep :: joinChar sep rest

/-- Join strings with `/`, modelling `Array.prototype.join('/')`. -/
def joinSlash (l : List String) : String :=
  ⟨joinChar '/' (l.map String.data)⟩

/-- Does the string start with `:` (named-parameter token)? -/
def startsWithColon (s : String) : Bool :=
  match s.data with
  | ':' :: _ => true
  | _ => false

/-- Drop the first character, modelling `substring(1)` on ASCII data. -/
def dropFirst (s : String) : String := ⟨s.data.drop 1⟩

/-- Drop a single trailing `/` if present, modelling
`replace(/\/$/, '')`. -/
def stripSlashEnd (s : String) : String :=
  if s.data.getLast? = some '/' then ⟨s.data.dropLast⟩ else s

/-- Membership in the JavaScript character class `[\w-.~]` used for
named-parameter capture groups: word characters plus `-`, `.`, `~`. -/
def wordChar (c : Char) : Bool :=
  c.isAlphanum || c = '_' || c = '-' || c = '.' || c = '~'

/-- Membership in the static-URL character class `[~\w/.-]`. -/
def staticChar (c : Char) : Bool := wordChar c || c = '/'

/-- Membership in the named-path character class `[:~\w/.-]`. -/
def namedChar (c : Char) : Bool := staticChar c || c = ':'

/-- The test `/^\/?([~\w/.-]+)\/?$/.test(uri)`: since the class itself
contains `/`, the regex accepts exactly the nonempty strings over the
static class. -/
def regexCheckStaticURL (uri : String) : Bool :=
  !uri.data.isEmpty && uri.data.all staticChar

/-- The test `/^\/?([:~\w/.-]+)\/?$/.test(uri)`: nonempty strings over
the named-path class. -/
def regexCheckNamedPath (uri : String) : Bool :=
  !uri.data.isEmpty && uri.data.all namedChar

/-- The regex source text substituted for each `:name` token. -/
def groupStr : String := "([\\w-.~]+)"

/-- `createNamedRouteSearchKey`: convert the token list of a pattern to a
regex source string and collect the parameter names (source lines
340-359). -/
def createNamedRouteSearchKey (tokens : List String) : List String × String :=
  if tokens.isEmpty then ([], "")
  else
    let r := tokens.foldl
      (fun (acc : List String × String) token =>
        if startsWithColon token then
          (acc.1 ++ [dropFirst token], acc.2 ++ "/" ++ groupStr)
        else
          (acc.1, acc.2 ++ "/" ++ token))
      ([], "")
    (r.1, dropFirst r.2)

/-- `buildRequestMap` (source lines 403-451): classify the pattern as
static or dynamic and insert it into the given per-method table. -/
def buildRequestMap (routeMap : RouteMap) (uri : String)
    (callbacks : List Handler) : RouteMap :=
  if regexCheckStaticURL uri then
    match assocLookup uri routeMap.staticRouteMap with
    | none =>
      { routeMap with staticRouteMap := routeMap.staticRouteMap ++ [(uri, callbacks)] }
    | some existing =>
      { routeMap with
          staticRouteMap := updateKey uri (existing ++ callbacks) routeMap.staticRouteMap }
  else
    let useRegex := !regexCheckNamedPath uri
    let tokens := splitStr '/' uri
    let bucket := tokens.length - 1
    let pathNames := tokens.drop 1
    let pk := createNamedRouteSearchKey tokens
    let entry : RouteEntry := ⟨pk.2, pk.1, callbacks, pathNames, useRegex⟩
    match assocLookup bucket routeMap.namedRoutePartitionMap with
    | none =>
      { routeMap with
          namedRoutePartitionMap :=
            routeMap.namedRoutePartitionMap ++ [(bucket, [entry])] }
    | some existing =>
      { routeMap with
          namedRoutePartitionMap :=
            updateKey bucket (existing ++ [entry]) routeMap.namedRoutePartitionMap }

/-- Per-request mutable state: the parameter bag (`request.params`), the
trace of executed handler ids, and the observable response fields. -/
structure HttpState where
  params : List (String × String) := []
  executed : List Nat := []
  status : Option Nat := none
  body : Option String := none
  ended : Bool := false
deriving DecidableEq, Repr

/-- Write the 404 response (`writeHead(404, ...)` followed by
`end('Route not found')`). -/
def write404 (st : HttpState) : HttpState :=
  { st with status := some 404, body := some "Route not found", ended := true }

/-- Record the execution of one handler. -/
def execHandler (h : Handler) (st : HttpState) : HttpState :=
  { st with executed := st.executed ++ [h.id] }

/-- Run the top-level middleware chain (`callTopLevelMiddlewares`):
return values are ignored, there is no early exit, and a thrown
exception (second component `true`) aborts the remaining middlewares. -/
def runMiddlewares : List Handler → HttpState → HttpState × Bool
  | [], st => (st, false)
  | h :: rest, st =>
    let st1 := execHandler h st
    match h.res with
    | .exn => (st1, true)
    | .ret _ => runMiddlewares rest st1

/-- Run a matched handler chain (the `for ... of callback_chain` loops at
source lines 548-554 and 577-584): a truthy return value ends the
response and breaks out of the chain; an exception (second component
`true`) aborts it. -/
def runChain : List Handler → HttpState → HttpState × Bool
  | [], st => (st, false)
  | h :: rest, st =>
    let st1 := execHandler h st
    match h.res with
    | .exn => (st1, true)
    | .ret true => ({ st1 with ended := true }, false)
    | .ret false => runChain rest st1

/-- `fastPathMatch`'s right-to-left scan over the reversed list of
(URL-segment, pattern-segment) pairs, threading the parameter bag.  A
`:`-token always matches and records its segment; a literal token must
be equal; the first mismatch stops the scan with the bag as written so
far. -/
def fastScan : List (String × String) → List (String × String) →
    List (String × String) × Bool
  | [], bag => (bag, true)
  | q :: rest, bag =>
    if startsWithColon q.2 then fastScan rest ((dropFirst q.2, q.1) :: bag)
    else if q.1 = q.2 then fastScan rest bag
    else (bag, false)

/-- `fastPathMatch` (source lines 475-500): positional matching of URL
segments `pathNames` against pattern segments `keyNames`, scanning from
the last segment towards the first and writing captures into the bag. -/
def fastPathMatch (pathNames keyNames : List String)
    (bag : List (String × String)) : List (String × String) × Bool :=
  if keyNames.length = pathNames.length then
    fastScan ((pathNames.zip keyNames).reverse) bag
  else (bag, false)

/-- Tokens of the regex subset generated by `createNamedRouteSearchKey`:
literal characters and the capture group `([\w-.~]+)`. -/
inductive RTok where
  | lit (c : Char)
  | grp
deriving DecidableEq, Repr

/-- Parse a regex source string of the generated form into its token
list: each occurrence of the ten-character group text becomes `grp`,
every other character a literal. -/
def parseKey : List Char → List RTok
  | [] => []
  | '(' :: '[' :: '\\' :: 'w' :: '-' :: '.' :: '~' :: ']' :: '+' :: ')' :: rest =>
    RTok.grp :: parseKey rest
  | c :: rest => RTok.lit c :: parseKey rest

/-- Greedy backtracking for a capture group: try the candidate lengths
from `n` down to `1`, continuing the match with `f` on the remaining
characters. -/
def tryLens (f : List Char → Option (List String)) (cs : List Char) :
    Nat → Option (List String)
  | 0 => none
  | n + 1 =>
    match f (cs.drop (n + 1)) with
    | some caps => some (⟨cs.take (n + 1)⟩ :: caps)
    | none => tryLens f cs n

/-- Match a token list against a prefix of the input (the input may have
characters left over, as with an unanchored JavaScript regex), returning
the captured groups. -/
def matchFrom : List RTok → List Char → Option (List String)
  | [], _ => some []
  | .lit _ :: _, [] => none
  | .lit c :: rest, x :: xs => if x = c then matchFrom rest xs else none
  | .grp :: rest, cs => tryLens (matchFrom rest) cs ((cs.takeWhile wordChar).length)

/-- Leftmost match: try each start offset in order, modelling
`RegExp.prototype.exec`'s search. -/
def execFrom (toks : List RTok) : List Char → Option (List String)
  | [] => matchFrom toks []
  | c :: xs =>
    match matchFrom toks (c :: xs) with
    | some caps => some caps
    | none => execFrom toks xs

/-- `attachPathParamsToRequestIfExists` (source lines 370-393): evaluate
the compiled regex `key` against the URL; on a match, write capture `i`
under parameter name `i` into the bag.  The guard `!pk.params || !pk.key`
is falsy-based: an empty params *array* is truthy in JavaScript, so only
an empty `key` string short-circuits. -/
def attachPathParamsToRequestIfExists (uri : String) (params : List String)
    (key : String) (bag : List (String × String)) :
    List (String × String) × Bool :=
  if key = "" then (bag, false)
  else
    match execFrom (parseKey key.data) uri.data with
    | none => (bag, false)
    | some caps =>
      ((params.zip caps).foldl (fun b q => q :: b) bag, true)

/-- Outcome of the scan over a partition bucket's entries in
`processHTTPMethod`: the loop `return`ed after running a chain, fell
through with no (completed) match, or an exception was thrown. -/
inductive Outcome where
  | returned
  | fell
  | threw
deriving DecidableEq, Repr

/-- The `for (const namedRouteParam of namedRouteParams)` loop of
`processHTTPMethod` (source lines 570-588): try each entry of the bucket
in order; on a match run the top-level middlewares and then, if the
entry's chain is nonempty, run it and return; a matching entry with an
empty chain leaves the loop running. -/
def scanEntries (mw : List Handler) (url : String) (pathNames : List String) :
    List RouteEntry → HttpState → HttpState × Outcome
  | [], st => (st, .fell)
  | e :: rest, st =>
    let m :=
      if !e.useRegex then fastPathMatch pathNames e.pathNames st.params
      else attachPathParamsToRequestIfExists url e.params e.key st.params
    let st1 := { st with params := m.1 }
    if m.2 then
      let p := runMiddlewares mw st1
      if p.2 then (p.1, .threw)
      else if e.callbacks.length ≠ 0 then
        let q := runChain e.callbacks p.1
        (q.1, if q.2 then .threw else .returned)
      else scanEntries mw url pathNames rest p.1
    else scanEntries mw url pathNames rest st1

/-- URL normalization at dispatch time (source lines 525-539): drop the
query string, then strip a trailing `/` unless the path is a single
character. -/
def normalizeURL (url : String) : String :=
  let u := (splitStr '?' url).headD ""
  if u.data.length > 1 && u.data.getLast? = some '/' then ⟨u.data.dropLast⟩ else u

/-- The static branch of `processHTTPMethod` (source lines 542-555,
together with the surrounding `catch`): run the top-level middlewares,
then the chain found in `staticRouteMap`; any exception becomes the 404
response. -/
def staticBranch (mw : List Handler) (cbs : List Handler) (st : HttpState) :
    HttpState :=
  let p := runMiddlewares mw st
  if p.2 then write404 p.1
  else if cbs.length = 0 then p.1
  else
    let q := runChain cbs p.1
    if q.2 then write404 q.1 else q.1

/-- `processHTTPMethod` (source lines 510-620) for the route table of the
selected method, with `mw` the top-level middleware chain.  Exceptions
raised by middlewares or handlers are caught and turned into the 404
response, mirroring the `try`/`catch`; a missing bucket or an exhausted
bucket scan produces the 404 response when `throwOnNotFound` is set; a
present but empty bucket list returns without writing a response. -/
def processHTTPMethod (mw : List Handler) (routeMap : RouteMap) (url : String)
    (throwOnNotFound : Bool := true) : HttpState :=
  let URL := normalizeURL url
  let st0 : HttpState := {}
  match assocLookup URL routeMap.staticRouteMap with
  | some cbs => staticBranch mw cbs st0
  | none =>
    let pathNames := (splitStr '/' URL).drop 1
    let bucket := pathNames.length
    match assocLookup bucket routeMap.namedRoutePartitionMap with
    | some entries =>
      if entries.length = 0 then st0
      else
        let p := scanEntries mw URL pathNames entries st0
        match p.2 with
        | .returned => p.1
        | .threw => write404 p.1
        | .fell => if throwOnNotFound then write404 p.1 else p.1
    | none => if throwOnNotFound then write404 st0 else st0

/-- Static-map merge of `mergeRouterMaps` (source lines 631-643): an
empty target map is assigned the source map wholesale; otherwise every
source key's chain is concatenated onto the target entry for that key —
accessing `.callbacks` of a missing target entry throws (`.error ()`). -/
def mergeStaticMaps (tgt src : List (String × List Handler)) :
    Except Unit (List (String × List Handler)) :=
  if tgt.length = 0 then .ok src
  else
    src.foldlM
      (fun acc p =>
        match assocLookup p.1 acc with
        | none => .error ()
        | some cur => .ok (updateKey p.1 (cur ++ p.2) acc))
      tgt

/-- Partition-map merge of `mergeRouterMaps` (source lines 645-661): an
empty target map is assigned the source map wholesale; otherwise buckets
present in both are concatenated, and source-only buckets are skipped. -/
def mergeNamedMaps (tgt src : List (Nat × List RouteEntry)) :
    List (Nat × List RouteEntry) :=
  if tgt.length = 0 then src
  else
    src.foldl
      (fun acc p =>
        match assocLookup p.1 acc with
        | none => acc
        | some cur => updateKey p.1 (cur ++ p.2) acc)
      tgt

instance {ε α : Type} [DecidableEq ε] [DecidableEq α] : DecidableEq (Except ε α) := fun a b =>
  match a, b with
  | .error e, .error f =>
    if h : e = f then .isTrue (by rw [h]) else .isFalse (by simp [h])
  | .ok x, .ok y =>
    if h : x = y then .isTrue (by rw [h]) else .isFalse (by simp [h])
  | .error _, .ok _ => .isFalse (by simp)
  | .ok _, .error _ => .isFalse (by simp)

/-- Merge one source per-method table into one target table. -/
def mergeOneRouteMap (tgt src : RouteMap) : Except Unit RouteMap :=
  (mergeStaticMaps tgt.staticRouteMap src.staticRouteMap).map
    fun st => ⟨st, mergeNamedMaps tgt.namedRoutePartitionMap src.namedRoutePartitionMap⟩

/-- `mergeRouterMaps` (source lines 629-665): merge a mounted router's
tables into the host's, method by method. -/
def mergeRouterMaps (tgt src : List RouteMap) : Except Unit (List RouteMap) :=
  (tgt.zip src).mapM fun p => mergeOneRouteMap p.1 p.2

/-- Node `path.join` for POSIX paths without `.`/`..` segments: join the
two paths with `/`, collapsing duplicate separators and keeping the
leading `/` of the first argument; the join of two empty paths is `.`. -/
def pathJoin (a b : String) : String :=
  let segs := ((splitOnChar '/' a.data) ++ (splitOnChar '/' b.data)).filter
    fun l => !l.isEmpty
  let joined := joinChar '/' segs
  if a.data.head? = some '/' then ⟨'/' :: joined⟩
  else if joined.isEmpty then "." else ⟨joined⟩

/-- Append a route entry to a partition bucket, creating the bucket if
absent (the `mapOfNamedRouteCallback` insertions at source lines
132-137). -/
def assocPush (m : List (Nat × List RouteEntry)) (bucket : Nat)
    (e : RouteEntry) : List (Nat × List RouteEntry) :=
  match assocLookup bucket m with
  | none => m ++ [(bucket, [e])]
  | some existing => updateKey bucket (existing ++ [e]) m

/-- `Object.assign(tgt, m)`: existing keys are overwritten in place, new
keys are appended in source order. -/
def objAssign {κ α : Type} [DecidableEq κ] (tgt m : List (κ × α)) :
    List (κ × α) :=
  m.foldl
    (fun acc p =>
      match assocLookup p.1 acc with
      | none => acc ++ [p]
      | some _ => updateKey p.1 p.2 acc)
    tgt

/-- Re-key one dynamic entry for mounting under a path prefix (source
lines 118-129): join the prefix with the entry's path, strip a trailing
slash, and recompute the bucket, path segments, regex key, parameter
names and `useRegex` flag from the re-keyed path. -/
def remapEntry (uri : String) (e : RouteEntry) : Nat × RouteEntry :=
  let keySrc := joinSlash e.pathNames
  let keyDest := stripSlashEnd (pathJoin uri keySrc)
  let useRegex := !regexCheckNamedPath keyDest
  let tokens := splitStr '/' keyDest
  let bucket := tokens.length - 1
  let pathNames := tokens.drop 1
  let pk := createNamedRouteSearchKey tokens
  (bucket, ⟨pk.2, pk.1, e.callbacks, pathNames, useRegex⟩)

/-- The named-path part of mounting a router on a path prefix
(`use(uri, router)`, source lines 112-146): every entry of every source
bucket is re-keyed through `remapEntry`, collected into a fresh bucket
map, and the accumulated map is `Object.assign`ed over the target
partition map. -/
def mountNamedPrefixed (uri : String) (src tgt : List (Nat × List RouteEntry)) :
    List (Nat × List RouteEntry) :=
  let mapOf := src.foldl
    (fun acc p =>
      p.2.foldl
        (fun acc e => assocPush acc (remapEntry uri e).1 (remapEntry uri e).2)
        acc)
    []
  objAssign tgt mapOf

/-- The bucket invariant of the partition map: every entry stored under
bucket `b` has exactly `b` path segments. -/
def RouteMapWF (m : List (Nat × List RouteEntry)) : Prop :=
  ∀ p ∈ m, ∀ e ∈ p.2, e.pathNames.length = p.1

instance (m : List (Nat × List RouteEntry)) : Decidable (RouteMapWF m) := by
  unfold RouteMapWF; infer_instance

/-! ## Association-list lemmas -/

theorem assocLookup_cons {κ α : Type} [DecidableEq κ] (k : κ) (p : κ × α)
    (m : List (κ × α)) :
    assocLookup k (p :: m) = if p.1 = k then some p.2 else assocLookup k m := rfl

theorem assocLookup_append_of_none {κ α : Type} [DecidableEq κ] {k : κ}
    {l : List (κ × α)} (m : List (κ × α)) (h : assocLookup k l = none) :
    assocLookup k (l ++ m) = assocLookup k m := by
  induction l with
  | nil => rfl
  | cons p rest ih =>
    rw [assocLookup_cons] at h
    by_cases hp : p.1 = k
    · simp [hp] at h
    · simp only [hp, if_false] at h
      simpa [assocLookup, hp] using ih h

theorem assocLookup_append_of_some {κ α : Type} [DecidableEq κ] {k : κ}
    {l : List (κ × α)} {v : α} (m : List (κ × α))
    (h : assocLookup k l = some v) :
    assocLookup k (l ++ m) = some v := by
  induction l with
  | nil => simp [assocLookup] at h
  | cons p rest ih =>
    rw [assocLookup_cons] at h
    by_cases hp : p.1 = k
    · simp only [hp, if_pos rfl] at h
      simpa [assocLookup, hp] using h
    · simp only [hp, if_false] at h
      simpa [assocLookup, hp] using ih h

theorem assocLookup_not_mem_keys {κ α : Type} [DecidableEq κ] {k : κ}
    {l : List (κ × α)} (h : k ∉ l.map Prod.fst) :
    assocLookup k l = none := by
  induction l with
  | nil => rfl
  | cons p rest ih =>
    simp only [List.map_cons, List.mem_cons] at h
    push_neg at h
    have h1 : ¬p.1 = k := fun hh => h.1 hh.symm
    simp [assocLookup, h1, ih h.2]

theorem assocLookup_mem {κ α : Type} [DecidableEq κ] {k : κ} {v : α}
    {l : List (κ × α)} (h : assocLookup k l = some v) : (k, v) ∈ l := by
  induction l with
  | nil => simp [assocLookup] at h
  | cons p rest ih =>
    rw [assocLookup_cons] at h
    by_cases hp : p.1 = k
    · rw [if_pos hp] at h
      have hv : (k, v) = p := by
        obtain ⟨p1, p2⟩ := p
        obtain rfl : p1 = k := hp
        obtain rfl : p2 = v := Option.some.inj h
        rfl
      rw [hv]
      exact List.mem_cons_self _ _
    · rw [if_neg hp] at h
      exact List.mem_cons_of_mem _ (ih h)

theorem updateKey_cons {κ α : Type} [DecidableEq κ] (k : κ) (w : α)
    (p : κ × α) (m : List (κ × α)) :
    updateKey k w (p :: m) =
      (if p.1 = k then (p.1, w) else p) :: updateKey k w m := by
  simp only [updateKey, List.map_cons]

theorem assocLookup_updateKey_self {κ α : Type} [DecidableEq κ] {k : κ}
    {v : α} {m : List (κ × α)} (w : α) (h : assocLookup k m = some v) :
    assocLookup k (updateKey k w m) = some w := by
  induction m with
  | nil => simp [assocLookup] at h
  | cons p rest ih =>
    rw [assocLookup_cons] at h
    rw [updateKey_cons]
    by_cases hp : p.1 = k
    · simp [assocLookup, hp]
    · rw [if_neg hp] at h
      simp [assocLookup, hp, ih h]

theorem assocLookup_updateKey_ne {κ α : Type} [DecidableEq κ] {k k' : κ}
    (w : α) (m : List (κ × α)) (h : k' ≠ k) :
    assocLookup k' (updateKey k w m) = assocLookup k' m := by
  induction m with
  | nil => rfl
  | cons p rest ih =>
    rw [updateKey_cons]
    by_cases hp : p.1 = k
    · have hne : ¬k = k' := fun hh => h hh.symm
      simp [assocLookup, hp, hne, ih]
    · simp [assocLookup, hp, ih]

theorem assocLookup_updateKey_none {κ α : Type} [DecidableEq κ] {k k' : κ}
    (w : α) {m : List (κ × α)} (h : assocLookup k' m = none) :
    assocLookup k' (updateKey k w m) = none := by
  induction m with
  | nil => rfl
  | cons p rest ih =>
    rw [assocLookup_cons] at h
    by_cases hp : p.1 = k'
    · simp [hp] at h
    · rw [if_neg hp] at h
      rw [updateKey_cons]
      by_cases hk : p.1 = k
      · have hkk : ¬k = k' := fun hh => hp (hk.trans hh)
        simp [assocLookup, hk, hkk, ih h]
      · simp [assocLookup, hk, hp, ih h]

theorem assocLookup_middle_skip {κ α : Type} [DecidableEq κ] {k : κ}
    (p : κ × α) (l m : List (κ × α)) (h : p.1 ≠ k) :
    assocLookup k (l ++ p :: m) = assocLookup k (l ++ m) := by
  induction l with
  | nil => simp [assocLookup, h]
  | cons q rest ih =>
    by_cases hq : q.1 = k <;> simp [assocLookup, hq, ih]

theorem assocLookup_reverse_append {κ α : Type} [DecidableEq κ]
    {l : List (κ × α)} (hnd : (l.map Prod.fst).Nodup) (k : κ)
    (bag : List (κ × α)) :
    assocLookup k (l ++ bag) = assocLookup k (l.reverse ++ bag) := by
  induction l generalizing bag with
  | nil => rfl
  | cons p rest ih =>
    simp only [List.map_cons, List.nodup_cons] at hnd
    by_cases hp : p.1 = k
    · have hnotin : k ∉ rest.reverse.map Prod.fst := by
        simpa [hp] using hnd.1
      rw [List.cons_append, assocLookup_cons, if_pos hp, List.reverse_cons,
        List.append_assoc, assocLookup_append_of_none _ (assocLookup_not_mem_keys hnotin)]
      simp [assocLookup, hp]
    · rw [List.cons_append, assocLookup_cons, if_neg hp, List.reverse_cons,
        List.append_assoc, List.singleton_append, ← ih hnd.2 (p :: bag),
        assocLookup_middle_skip p rest bag hp]

/-! ## Handler-chain execution lemmas -/

theorem runMiddlewares_no_exn {mw : List Handler}
    (h : ∀ m ∈ mw, m.res ≠ .exn) (st : HttpState) :
    runMiddlewares mw st =
      ({ st with executed := st.executed ++ mw.map Handler.id }, false) := by
  induction mw generalizing st with
  | nil => simp [runMiddlewares]
  | cons g rest ih =>
    have hg := h g (List.mem_cons_self g rest)
    match hres : g.res with
    | .exn => exact absurd hres hg
    | .ret b =>
      rw [runMiddlewares, hres, ih (fun m hm => h m (List.mem_cons_of_mem _ hm))]
      simp [execHandler]

theorem runChain_first_truthy {pre : List Handler} (h : Handler)
    (post : List Handler) (hpre : ∀ g ∈ pre, g.res = .ret false)
    (hh : h.res = .ret true) (st : HttpState) :
    runChain (pre ++ h :: post) st =
      ({ st with executed := st.executed ++ (pre.map Handler.id ++ [h.id]),
                 ended := true }, false) := by
  induction pre generalizing st with
  | nil => simp [runChain, hh, execHandler]
  | cons g rest ih =>
    have hg := hpre g (List.mem_cons_self g rest)
    rw [List.cons_append, runChain, hg]
    rw [ih (fun m hm => hpre m (List.mem_cons_of_mem _ hm))]
    simp [execHandler]

theorem runChain_exn {pre : List Handler} (h : Handler)
    (post : List Handler) (hpre : ∀ g ∈ pre, g.res = .ret false)
    (hh : h.res = .exn) (st : HttpState) :
    runChain (pre ++ h :: post) st =
      ({ st with executed := st.executed ++ (pre.map Handler.id ++ [h.id]) },
        true) := by
  induction pre generalizing st with
  | nil => simp [runChain, hh, execHandler]
  | cons g rest ih =>
    have hg := hpre g (List.mem_cons_self g rest)
    rw [List.cons_append, runChain, hg]
    rw [ih (fun m hm => hpre m (List.mem_cons_of_mem _ hm))]
    simp [execHandler]

/-! ## URL-normalization lemmas -/

theorem splitOnChar_of_not_mem {sep : Char} {l : List Char}
    (h : ∀ c ∈ l, ¬c = sep) : splitOnChar sep l = [l] := by
  induction l with
  | nil => rfl
  | cons c cs ih =>
    have hc := h c (List.mem_cons_self _ _)
    rw [splitOnChar, if_neg hc, ih fun d hd => h d (List.mem_cons_of_mem _ hd)]

theorem normalizeURL_eq_self {p : String} (hq : ∀ c ∈ p.data, ¬c = '?')
    (hslash : ¬p.data.getLast? = some '/') : normalizeURL p = p := by
  unfold normalizeURL splitStr
  rw [splitOnChar_of_not_mem hq]
  simp [hslash]

theorem normalizeURL_trailing {p : String} (hq : ∀ c ∈ p.data, ¬c = '?')
    (hne : p.data ≠ []) : normalizeURL (p ++ "/") = p := by
  have hdata : (p ++ "/").data = p.data ++ ['/'] := String.data_append p "/"
  have hq' : ∀ c ∈ (p ++ "/").data, ¬c = '?' := by
    rw [hdata]
    intro c hc
    rcases List.mem_append.1 hc with hc | hc
    · exact hq c hc
    · simp only [List.mem_singleton] at hc
      subst hc
      decide
  have hlen : (p.data ++ ['/']).length > 1 := by
    have : p.data.length > 0 := List.length_pos.2 hne
    simp only [List.length_append, List.length_singleton]
    omega
  unfold normalizeURL splitStr
  rw [splitOnChar_of_not_mem hq', hdata]
  simp only [List.map_cons, List.map_nil, List.headD_cons]
  rw [if_pos]
  · show (⟨(p.data ++ ['/']).dropLast⟩ : String) = p
    rw [List.dropLast_concat]
  · show ((p.data ++ ['/']).length > 1 && (p.data ++ ['/']).getLast? = some '/') = true
    simp [List.getLast?_concat, hlen]
    exact List.length_pos.2 hne

theorem staticURL_no_qmark {p : String} (h : regexCheckStaticURL p = true) :
    ∀ c ∈ p.data, ¬c = '?' := by
  unfold regexCheckStaticURL at h
  rw [Bool.and_eq_true] at h
  intro c hc hcq
  have hcs := (List.all_eq_true.1 h.2) c hc
  subst hcq
  exact absurd hcs (by decide)

theorem staticURL_ne_nil {p : String} (h : regexCheckStaticURL p = true) :
    p.data ≠ [] := by
  unfold regexCheckStaticURL at h
  rw [Bool.and_eq_true] at h
  simpa [List.isEmpty_iff] using h.1

/-! ## Claim C1 -/

/-- C1: when the normalized request path is an exact key of the selected
method's `staticRouteMap`, `processHTTPMethod` returns the result of
executing that static entry's chain (the static branch), and its result
is independent of the contents of the dynamic partition map — static
routes always win over dynamic ones for the same path. -/
theorem C1_static_route_priority (mw : List Handler)
    (s : List (String × List Handler)) (pm pm' : List (Nat × List RouteEntry))
    (url : String) (tonf : Bool) (cbs : List Handler)
    (h : assocLookup (normalizeURL url) s = some cbs) :
    processHTTPMethod mw ⟨s, pm⟩ url tonf = staticBranch mw cbs {} ∧
    processHTTPMethod mw ⟨s, pm⟩ url tonf =
      processHTTPMethod mw ⟨s, pm'⟩ url tonf := by
  constructor <;> · unfold processHTTPMethod; simp only [h]

theorem C1_static_route_priority_witness :
    assocLookup (normalizeURL "/w")
        [("/w", [(⟨7, .ret false⟩ : Handler)])] = some [⟨7, .ret false⟩] ∧
    (processHTTPMethod [] ⟨[("/w", [⟨7, .ret false⟩])], []⟩ "/w" true =
        staticBranch [] [⟨7, .ret false⟩] {} ∧
      processHTTPMethod [] ⟨[("/w", [⟨7, .ret false⟩])], []⟩ "/w" true =
        processHTTPMethod []
          ⟨[("/w", [⟨7, .ret false⟩])],
            [(1, [⟨"w", [], [⟨9, .ret true⟩], ["w"], false⟩])]⟩ "/w" true) :=
  ⟨by decide,
    C1_static_route_priority [] [("/w", [⟨7, .ret false⟩])] []
      [(1, [⟨"w", [], [⟨9, .ret true⟩], ["w"], false⟩])] "/w" true
      [⟨7, .ret false⟩] (by decide)⟩

/-! ## Claim C2 -/

/-- C2, counterexample: registering `/a/:x` then `/a/b` under the same
method and dispatching `/a/b` executes the literal `/a/b` entry (handler
id 2) and captures nothing — the literal pattern is classified static and
static lookup precedes the dynamic scan, so `/a/:x` does *not* win. -/
theorem C2_counterexample :
    (processHTTPMethod []
        (buildRequestMap (buildRequestMap RouteMap.empty "/a/:x" [⟨1, .ret false⟩])
          "/a/b" [⟨2, .ret false⟩]) "/a/b").executed = [2] ∧
    assocLookup "x"
      (processHTTPMethod []
          (buildRequestMap (buildRequestMap RouteMap.empty "/a/:x" [⟨1, .ret false⟩])
            "/a/b" [⟨2, .ret false⟩]) "/a/b").params = none := by decide

/-- C2, amended: a literal pattern such as `/a/b` is stored in the static
map and wins over the earlier dynamic `/a/:x` for a `/a/b` request;
registration order is the tie-break only among *dynamic* entries sharing
a partition bucket — with `/a/:x` and `/:y/b` registered in that order, a
request for `/a/b` matches `/a/:x` first, capturing `x = "b"`. -/
theorem C2_tie_break_amended :
    ((processHTTPMethod []
        (buildRequestMap (buildRequestMap RouteMap.empty "/a/:x" [⟨1, .ret false⟩])
          "/a/b" [⟨2, .ret false⟩]) "/a/b").executed = [2] ∧
      assocLookup "x"
        (processHTTPMethod []
            (buildRequestMap (buildRequestMap RouteMap.empty "/a/:x" [⟨1, .ret false⟩])
              "/a/b" [⟨2, .ret false⟩]) "/a/b").params = none) ∧
    ((processHTTPMethod []
        (buildRequestMap (buildRequestMap RouteMap.empty "/a/:x" [⟨1, .ret false⟩])
          "/:y/b" [⟨2, .ret false⟩]) "/a/b").executed = [1] ∧
      assocLookup "x"
        (processHTTPMethod []
            (buildRequestMap (buildRequestMap RouteMap.empty "/a/:x" [⟨1, .ret false⟩])
              "/:y/b" [⟨2, .ret false⟩]) "/a/b").params = some "b" ∧
      assocLookup "y"
        (processHTTPMethod []
            (buildRequestMap (buildRequestMap RouteMap.empty "/a/:x" [⟨1, .ret false⟩])
              "/:y/b" [⟨2, .ret false⟩]) "/a/b").params = none) := by decide

/-! ## Claim C4 -/

/-- C4, counterexample: registering the static pattern `/a/` inserts the
key verbatim — the trailing slash is *not* stripped — so dispatching
`/a/` (normalized to `/a`) misses the static map, falls into the dynamic
partition lookup, executes nothing, and produces a 404. -/
theorem C4_counterexample :
    (buildRequestMap RouteMap.empty "/a/" [⟨1, .ret false⟩]).staticRouteMap =
        [("/a/", [⟨1, .ret false⟩])] ∧
    (processHTTPMethod []
        (buildRequestMap RouteMap.empty "/a/" [⟨1, .ret false⟩]) "/a/").status =
      some 404 ∧
    (processHTTPMethod []
        (buildRequestMap RouteMap.empty "/a/" [⟨1, .ret false⟩]) "/a/").executed =
      [] := by decide

/-- C4, amended: registration inserts the static pattern verbatim
(without stripping a trailing slash); consequently, for every static
pattern `p` registered *without* a trailing slash, dispatching a request
whose path is `p` with or without a trailing slash executes the
registered handler chain via the static branch, independently of the
dynamic partition map. -/
theorem C4_static_trailing_slash_amended (p : String) (hand : Handler)
    (pm : List (Nat × List RouteEntry)) (u : String)
    (hstatic : regexCheckStaticURL p = true)
    (hslash : ¬p.data.getLast? = some '/')
    (hu : u = p ∨ u = p ++ "/") :
    (buildRequestMap RouteMap.empty p [hand]).staticRouteMap = [(p, [hand])] ∧
    processHTTPMethod []
        { buildRequestMap RouteMap.empty p [hand] with
            namedRoutePartitionMap := pm } u true =
      staticBranch [] [hand] {} ∧
    (processHTTPMethod []
        { buildRequestMap RouteMap.empty p [hand] with
            namedRoutePartitionMap := pm } u true).executed = [hand.id] := by
  have hq := staticURL_no_qmark hstatic
  have hne := staticURL_ne_nil hstatic
  have hnorm : normalizeURL u = p := by
    rcases hu with rfl | rfl
    · exact normalizeURL_eq_self hq hslash
    · exact normalizeURL_trailing hq hne
  have hbuild :
      (buildRequestMap RouteMap.empty p [hand]).staticRouteMap = [(p, [hand])] := by
    unfold buildRequestMap RouteMap.empty
    simp [hstatic, assocLookup]
  have hlook : assocLookup p [(p, [hand])] = some [hand] := by
    simp [assocLookup]
  have hmain :
      processHTTPMethod []
          { buildRequestMap RouteMap.empty p [hand] with
              namedRoutePartitionMap := pm } u true =
        staticBranch [] [hand] {} := by
    unfold processHTTPMethod
    rw [hnorm]
    show (match assocLookup p (buildRequestMap RouteMap.empty p [hand]).staticRouteMap
        with
      | some cbs => staticBranch [] cbs {}
      | none => _) = staticBranch [] [hand] {}
    rw [hbuild, hlook]
  refine ⟨hbuild, hmain, ?_⟩
  rw [hmain]
  obtain ⟨hid, hres⟩ := hand
  unfold staticBranch runMiddlewares
  rcases hres with b | _
  · cases b <;> simp [runChain, execHandler, write404]
  · simp [runChain, execHandler, write404]

theorem C4_static_trailing_slash_amended_witness :
    (regexCheckStaticURL "/docs" = true ∧
      ¬("/docs" : String).data.getLast? = some '/' ∧
      ("/docs" = "/docs" ∨ "/docs" = "/docs" ++ "/")) ∧
    (regexCheckStaticURL "/docs" = true ∧
      ¬("/docs" : String).data.getLast? = some '/' ∧
      ("/docs/" = "/docs" ∨ "/docs/" = "/docs" ++ "/")) ∧
    ((buildRequestMap RouteMap.empty "/docs" [⟨3, .ret false⟩]).staticRouteMap =
        [("/docs", [⟨3, .ret false⟩])] ∧
      processHTTPMethod []
          { buildRequestMap RouteMap.empty "/docs" [⟨3, .ret false⟩] with
              namedRoutePartitionMap :=
                [(1, [⟨"w", [], [⟨9, .ret true⟩], ["docs"], false⟩])] } "/docs/" true =
        staticBranch [] [⟨3, .ret false⟩] {} ∧
      (processHTTPMethod []
          { buildRequestMap RouteMap.empty "/docs" [⟨3, .ret false⟩] with
              namedRoutePartitionMap :=
                [(1, [⟨"w", [], [⟨9, .ret true⟩], ["docs"], false⟩])] } "/docs/"
          true).executed = [3]) :=
  ⟨⟨by decide, by decide, by decide⟩, ⟨by decide, by decide, by decide⟩,
    C4_static_trailing_slash_amended "/docs" ⟨3, .ret false⟩
      [(1, [⟨"w", [], [⟨9, .ret true⟩], ["docs"], false⟩])] "/docs/"
      (by decide) (by decide) (by decide)⟩

/-! ## Claim C7 -/

/-- C7: in a matched route's handler chain, the first handler returning a
truthy value ends the response and stops the chain — no later handler of
that chain runs — while falsy results continue to the next handler in
registration order; shown both for the chain runner itself and for a full
dispatch through a matched static route. -/
theorem C7_truthy_halts_chain (mw : List Handler)
    (s : List (String × List Handler)) (pm : List (Nat × List RouteEntry))
    (url : String) (tonf : Bool) (pre : List Handler) (h : Handler)
    (post : List Handler)
    (hs : assocLookup (normalizeURL url) s = some (pre ++ h :: post))
    (hpre : ∀ g ∈ pre, g.res = .ret false) (hh : h.res = .ret true)
    (hmw : ∀ m ∈ mw, m.res ≠ .exn) :
    (∀ st, runChain (pre ++ h :: post) st =
      ({ st with executed := st.executed ++ (pre.map Handler.id ++ [h.id]),
                 ended := true }, false)) ∧
    processHTTPMethod mw ⟨s, pm⟩ url tonf =
      { params := [],
        executed := mw.map Handler.id ++ (pre.map Handler.id ++ [h.id]),
        status := none, body := none, ended := true } := by
  refine ⟨fun st => runChain_first_truthy h post hpre hh st, ?_⟩
  unfold processHTTPMethod
  simp only [hs]
  unfold staticBranch
  simp only [runMiddlewares_no_exn hmw, runChain_first_truthy h post hpre hh]
  simp [List.length_append]

theorem C7_truthy_halts_chain_witness :
    (assocLookup (normalizeURL "/c")
        [("/c", [(⟨1, .ret false⟩ : Handler), ⟨2, .ret true⟩, ⟨3, .ret false⟩])] =
      some ([⟨1, .ret false⟩] ++ ⟨2, .ret true⟩ :: [⟨3, .ret false⟩])) ∧
    ((∀ st, runChain ([⟨1, .ret false⟩] ++ (⟨2, .ret true⟩ : Handler) :: [⟨3, .ret false⟩]) st =
        ({ st with
            executed := st.executed ++
              ([(⟨1, .ret false⟩ : Handler)].map Handler.id ++ [2]),
            ended := true }, false)) ∧
      processHTTPMethod []
          ⟨[("/c", [⟨1, .ret false⟩, ⟨2, .ret true⟩, ⟨3, .ret false⟩])], []⟩ "/c" true =
        { params := [],
          executed := ([] : List Handler).map Handler.id ++
            ([(⟨1, .ret false⟩ : Handler)].map Handler.id ++ [2]),
          status := none, body := none, ended := true }) :=
  ⟨by decide,
    C7_truthy_halts_chain []
      [("/c", [⟨1, .ret false⟩, ⟨2, .ret true⟩, ⟨3, .ret false⟩])] [] "/c" true
      [⟨1, .ret false⟩] ⟨2, .ret true⟩ [⟨3, .ret false⟩]
      (by decide) (by decide) (by decide) (by decide)⟩

/-! ## Claim C3: bucket invariant -/

theorem RouteMapWF_lookup {m : List (Nat × List RouteEntry)}
    (hm : RouteMapWF m) {b : Nat} {es : List RouteEntry}
    (h : assocLookup b m = some es) : ∀ e ∈ es, e.pathNames.length = b :=
  hm (b, es) (assocLookup_mem h)

theorem RouteMapWF_append {m₁ m₂ : List (Nat × List RouteEntry)}
    (h₁ : RouteMapWF m₁) (h₂ : RouteMapWF m₂) : RouteMapWF (m₁ ++ m₂) := by
  intro p hp
  rcases List.mem_append.1 hp with hp | hp
  · exact h₁ p hp
  · exact h₂ p hp

theorem RouteMapWF_updateKey {m : List (Nat × List RouteEntry)} (b : Nat)
    (v : List RouteEntry) (hm : RouteMapWF m)
    (hv : ∀ e ∈ v, e.pathNames.length = b) : RouteMapWF (updateKey b v m) := by
  intro p hp
  obtain ⟨q, hq, hfq⟩ := List.mem_map.1 hp
  by_cases hqb : q.1 = b
  · rw [if_pos hqb] at hfq
    rw [← hfq]
    intro e he
    rw [hqb]
    exact hv e he
  · rw [if_neg hqb] at hfq
    rw [← hfq]
    exact hm q hq

theorem RouteMapWF_assocPush {m : List (Nat × List RouteEntry)} {b : Nat}
    {e : RouteEntry} (hm : RouteMapWF m) (he : e.pathNames.length = b) :
    RouteMapWF (assocPush m b e) := by
  unfold assocPush
  cases hl : assocLookup b m with
  | none =>
    refine RouteMapWF_append hm ?_
    intro p hp
    simp only [List.mem_singleton] at hp
    subst hp
    intro x hx
    simp only [List.mem_singleton] at hx
    subst hx
    exact he
  | some existing =>
    refine RouteMapWF_updateKey b _ hm ?_
    intro x hx
    rcases List.mem_append.1 hx with hx | hx
    · exact RouteMapWF_lookup hm hl x hx
    · simp only [List.mem_singleton] at hx
      subst hx
      exact he

theorem remapEntry_len (uri : String) (e : RouteEntry) :
    (remapEntry uri e).2.pathNames.length = (remapEntry uri e).1 := by
  simp [remapEntry]

theorem RouteMapWF_objAssign {tgt m : List (Nat × List RouteEntry)}
    (ht : RouteMapWF tgt) (hm : RouteMapWF m) :
    RouteMapWF (objAssign tgt m) := by
  unfold objAssign
  induction m generalizing tgt with
  | nil => exact ht
  | cons p rest ih =>
    have hp : ∀ x ∈ p.2, x.pathNames.length = p.1 := hm p (List.mem_cons_self _ _)
    have hrest : RouteMapWF rest := fun q hq => hm q (List.mem_cons_of_mem _ hq)
    rw [List.foldl_cons]
    cases hl : assocLookup p.1 tgt with
    | none =>
      refine ih ?_ hrest
      refine RouteMapWF_append ht ?_
      intro q hq
      simp only [List.mem_singleton] at hq
      subst hq
      exact hp
    | some cur => exact ih (RouteMapWF_updateKey _ _ ht hp) hrest

/-- C3, counterexample: registering the dynamic pattern `/a/:x` (whose
`pathNames` is `["a", ":x"]`, of length 2) stores nothing under bucket
`pathNames.length - 1 = 1`; the entry lands in bucket 2 with exactly 2
path segments, not `2 + 1`. -/
theorem C3_counterexample :
    assocLookup 1
        (buildRequestMap RouteMap.empty "/a/:x"
          [⟨1, .ret false⟩]).namedRoutePartitionMap = none ∧
    assocLookup 2
        (buildRequestMap RouteMap.empty "/a/:x"
          [⟨1, .ret false⟩]).namedRoutePartitionMap =
      some [⟨"/a/([\\w-.~]+)", ["x"], [⟨1, .ret false⟩], ["a", ":x"], false⟩] ∧
    (["a", ":x"] : List String).length = 2 := by decide

/-- C3, amended: a dynamic pattern is stored under partition bucket
`pathNames.length` (the pattern's split with the leading empty segment
dropped), every `RouteEntry` in bucket `b` has exactly `b` path
segments, and this invariant is preserved by registration
(`buildRequestMap`), by the no-prefix mount merge (`mergeNamedMaps`),
and by the prefix mount (`mountNamedPrefixed`). -/
theorem C3_bucket_invariant_amended :
    (∀ (rm : RouteMap) (uri : String) (cbs : List Handler),
      regexCheckStaticURL uri = false →
        assocLookup ((splitStr '/' uri).length - 1)
            (buildRequestMap rm uri cbs).namedRoutePartitionMap =
          some ((assocLookup ((splitStr '/' uri).length - 1)
              rm.namedRoutePartitionMap).getD [] ++
            [⟨(createNamedRouteSearchKey (splitStr '/' uri)).2,
              (createNamedRouteSearchKey (splitStr '/' uri)).1, cbs,
              (splitStr '/' uri).drop 1, !regexCheckNamedPath uri⟩]) ∧
        ((splitStr '/' uri).drop 1).length = (splitStr '/' uri).length - 1) ∧
    (∀ (rm : RouteMap) (uri : String) (cbs : List Handler),
      RouteMapWF rm.namedRoutePartitionMap →
        RouteMapWF (buildRequestMap rm uri cbs).namedRoutePartitionMap) ∧
    (∀ tgt src : List (Nat × List RouteEntry),
      RouteMapWF tgt → RouteMapWF src → RouteMapWF (mergeNamedMaps tgt src)) ∧
    (∀ (uri : String) (src tgt : List (Nat × List RouteEntry)),
      RouteMapWF tgt → RouteMapWF (mountNamedPrefixed uri src tgt)) := by
  refine ⟨?_, ?_, ?_, ?_⟩
  · intro rm uri cbs hdyn
    unfold buildRequestMap
    rw [hdyn]
    simp only [Bool.false_eq_true, if_false]
    refine ⟨?_, by simp⟩
    cases hl : assocLookup ((splitStr '/' uri).length - 1)
        rm.namedRoutePartitionMap with
    | none =>
      simp only [hl, Option.getD_none, List.nil_append]
      rw [assocLookup_append_of_none _ hl]
      simp [assocLookup]
    | some es =>
      simp only [hl, Option.getD_some]
      exact assocLookup_updateKey_self _ hl
  · intro rm uri cbs hwf
    unfold buildRequestMap
    by_cases hstat : regexCheckStaticURL uri
    · rw [if_pos hstat]
      cases assocLookup uri rm.staticRouteMap <;> exact hwf
    · rw [if_neg hstat]
      have hfit : ((splitStr '/' uri).drop 1).length =
          (splitStr '/' uri).length - 1 := by simp
      cases hl : assocLookup ((splitStr '/' uri).length - 1)
          rm.namedRoutePartitionMap with
      | none =>
        simp only [hl]
        refine RouteMapWF_append hwf ?_
        intro p hp
        simp only [List.mem_singleton] at hp
        subst hp
        intro e he
        simp only [List.mem_singleton] at he
        subst he
        exact hfit
      | some es =>
        simp only [hl]
        refine RouteMapWF_updateKey _ _ hwf ?_
        intro e he
        rcases List.mem_append.1 he with he | he
        · exact RouteMapWF_lookup hwf hl e he
        · simp only [List.mem_singleton] at he
          subst he
          exact hfit
  · intro tgt src htgt hsrc
    unfold mergeNamedMaps
    by_cases hlen : tgt.length = 0
    · rw [if_pos hlen]
      exact hsrc
    · rw [if_neg hlen]
      clear hlen
      induction src generalizing tgt with
      | nil => exact htgt
      | cons p rest ih =>
        have hp : ∀ x ∈ p.2, x.pathNames.length = p.1 :=
          hsrc p (List.mem_cons_self _ _)
        have hrest : RouteMapWF rest := fun q hq => hsrc q (List.mem_cons_of_mem _ hq)
        rw [List.foldl_cons]
        cases hl : assocLookup p.1 tgt with
        | none => exact ih _ htgt hrest
        | some cur =>
          refine ih _ (RouteMapWF_updateKey _ _ htgt ?_) hrest
          intro x hx
          rcases List.mem_append.1 hx with hx | hx
          · exact RouteMapWF_lookup htgt hl x hx
          · exact hp x hx
  · intro uri src tgt htgt
    unfold mountNamedPrefixed
    refine RouteMapWF_objAssign htgt ?_
    have hinner : ∀ (es : List RouteEntry) (acc : List (Nat × List RouteEntry)),
        RouteMapWF acc →
        RouteMapWF (es.foldl
          (fun acc e => assocPush acc (remapEntry uri e).1 (remapEntry uri e).2)
          acc) := by
      intro es
      induction es with
      | nil => intro acc hacc; exact hacc
      | cons e rest ih =>
        intro acc hacc
        rw [List.foldl_cons]
        exact ih _ (RouteMapWF_assocPush hacc (remapEntry_len uri e))
    have houter : ∀ (l : List (Nat × List RouteEntry))
        (acc : List (Nat × List RouteEntry)), RouteMapWF acc →
        RouteMapWF (l.foldl
          (fun acc p => p.2.foldl
            (fun acc e => assocPush acc (remapEntry uri e).1 (remapEntry uri e).2)
            acc) acc) := by
      intro l
      induction l with
      | nil => intro acc hacc; exact hacc
      | cons p rest ih =>
        intro acc hacc
        rw [List.foldl_cons]
        exact ih _ (hinner p.2 acc hacc)
    exact houter src [] (by intro p hp; simp at hp)

theorem C3_bucket_invariant_amended_witness :
    (regexCheckStaticURL "/a/:x" = false ∧
      assocLookup ((splitStr '/' "/a/:x").length - 1)
          (buildRequestMap RouteMap.empty "/a/:x"
            [⟨1, .ret false⟩]).namedRoutePartitionMap =
        some ((assocLookup ((splitStr '/' "/a/:x").length - 1)
            RouteMap.empty.namedRoutePartitionMap).getD [] ++
          [⟨(createNamedRouteSearchKey (splitStr '/' "/a/:x")).2,
            (createNamedRouteSearchKey (splitStr '/' "/a/:x")).1,
            [⟨1, .ret false⟩], (splitStr '/' "/a/:x").drop 1,
            !regexCheckNamedPath "/a/:x"⟩]) ∧
      ((splitStr '/' "/a/:x").drop 1).length = (splitStr '/' "/a/:x").length - 1) ∧
    RouteMapWF (buildRequestMap
        (buildRequestMap RouteMap.empty "/a/:x" [⟨1, .ret false⟩]) "/:y/b"
        [⟨2, .ret false⟩]).namedRoutePartitionMap ∧
    RouteMapWF (mergeNamedMaps
        [(2, [⟨"k", [], [], ["a", ":x"], false⟩])]
        [(2, [⟨"k", [], [], [":y", "b"], false⟩])]) ∧
    RouteMapWF (mountNamedPrefixed "/api"
        [(2, [⟨"k", [], [], ["a", ":x"], false⟩])] []) :=
  ⟨⟨by decide,
      (C3_bucket_invariant_amended.1 RouteMap.empty "/a/:x" [⟨1, .ret false⟩]
        (by decide)).1,
      (C3_bucket_invariant_amended.1 RouteMap.empty "/a/:x" [⟨1, .ret false⟩]
        (by decide)).2⟩,
    C3_bucket_invariant_amended.2.1
      (buildRequestMap RouteMap.empty "/a/:x" [⟨1, .ret false⟩]) "/:y/b"
      [⟨2, .ret false⟩] (by decide),
    C3_bucket_invariant_amended.2.2.1
      [(2, [⟨"k", [], [], ["a", ":x"], false⟩])]
      [(2, [⟨"k", [], [], [":y", "b"], false⟩])] (by decide) (by decide),
    C3_bucket_invariant_amended.2.2.2 "/api"
      [(2, [⟨"k", [], [], ["a", ":x"], false⟩])] [] (by decide)⟩

/-! ## Claims C8 and C10: router merging -/

theorem mergeStatic_fold_error :
    ∀ (src tgt : List (String × List Handler)) (k : String),
      assocLookup k tgt = none → (assocLookup k src).isSome = true →
      src.foldlM
        (fun acc p =>
          match assocLookup p.1 acc with
          | none => Except.error ()
          | some cur => Except.ok (updateKey p.1 (cur ++ p.2) acc))
        tgt = Except.error () := by
  intro src
  induction src with
  | nil =>
    intro tgt k h1 h2
    simp [assocLookup] at h2
  | cons p rest ih =>
    intro tgt k h1 h2
    rw [List.foldlM_cons]
    cases hl : assocLookup p.1 tgt with
    | none => rfl
    | some cur =>
      have hne : ¬p.1 = k := by
        intro hk
        rw [hk, h1] at hl
        cases hl
      have h1' : assocLookup k (updateKey p.1 (cur ++ p.2) tgt) = none :=
        assocLookup_updateKey_none _ h1
      have h2' : (assocLookup k rest).isSome = true := by
        rw [assocLookup_cons, if_neg hne] at h2
        exact h2
      show (rest.foldlM _ (updateKey p.1 (cur ++ p.2) tgt)) = Except.error ()
      exact ih _ k h1' h2'

theorem mergeStatic_fold_ok :
    ∀ (src tgt m : List (String × List Handler)),
      (src.map Prod.fst).Nodup →
      src.foldlM
        (fun acc p =>
          match assocLookup p.1 acc with
          | none => Except.error ()
          | some cur => Except.ok (updateKey p.1 (cur ++ p.2) acc))
        tgt = Except.ok m →
      (∀ k tv sv, assocLookup k tgt = some tv → assocLookup k src = some sv →
        assocLookup k m = some (tv ++ sv)) ∧
      (∀ k, assocLookup k src = none → assocLookup k m = assocLookup k tgt) := by
  intro src
  induction src with
  | nil =>
    intro tgt m _ hfold
    obtain rfl : tgt = m := by
      simpa [List.foldlM_nil, pure, Except.pure] using hfold
    constructor
    · intro k tv sv _ h2
      simp [assocLookup] at h2
    · intro k _
      rfl
  | cons p rest ih =>
    intro tgt m hnd hfold
    rw [List.foldlM_cons] at hfold
    cases hl : assocLookup p.1 tgt with
    | none =>
      rw [hl] at hfold
      cases hfold
    | some cur =>
      rw [hl] at hfold
      have hfold' : rest.foldlM _ (updateKey p.1 (cur ++ p.2) tgt) = Except.ok m :=
        hfold
      simp only [List.map_cons, List.nodup_cons] at hnd
      have hIH := ih _ m hnd.2 hfold'
      constructor
      · intro k tv sv h1 h2
        by_cases hk : p.1 = k
        · subst hk
          rw [assocLookup_cons, if_pos rfl] at h2
          obtain rfl : p.2 = sv := Option.some.inj h2
          obtain rfl : cur = tv := by
            rw [hl] at h1
            exact Option.some.inj h1
          have hnone : assocLookup p.1 rest = none :=
            assocLookup_not_mem_keys hnd.1
          rw [hIH.2 p.1 hnone]
          exact assocLookup_updateKey_self _ hl
        · rw [assocLookup_cons, if_neg hk] at h2
          have h1' : assocLookup k (updateKey p.1 (cur ++ p.2) tgt) = some tv := by
            rw [assocLookup_updateKey_ne _ _ fun hh => hk hh.symm]
            exact h1
          exact hIH.1 k tv sv h1' h2
      · intro k h
        rw [assocLookup_cons] at h
        by_cases hk : p.1 = k
        · rw [if_pos hk] at h
          cases h
        · rw [if_neg hk] at h
          rw [hIH.2 k h]
          exact assocLookup_updateKey_ne _ _ fun hh => hk hh.symm

theorem mergeNamed_fold_props :
    ∀ (src tgt : List (Nat × List RouteEntry)),
      (src.map Prod.fst).Nodup →
      (∀ b tv sv, assocLookup b tgt = some tv → assocLookup b src = some sv →
        assocLookup b (src.foldl
          (fun acc p =>
            match assocLookup p.1 acc with
            | none => acc
            | some cur => updateKey p.1 (cur ++ p.2) acc)
          tgt) = some (tv ++ sv)) ∧
      (∀ b, assocLookup b src = none →
        assocLookup b (src.foldl
          (fun acc p =>
            match assocLookup p.1 acc with
            | none => acc
            | some cur => updateKey p.1 (cur ++ p.2) acc)
          tgt) = assocLookup b tgt) ∧
      (∀ b, assocLookup b tgt = none →
        assocLookup b (src.foldl
          (fun acc p =>
            match assocLookup p.1 acc with
            | none => acc
            | some cur => updateKey p.1 (cur ++ p.2) acc)
          tgt) = none) := by
  intro src
  induction src with
  | nil =>
    intro tgt _
    exact ⟨fun b tv sv _ h2 => by simp [assocLookup] at h2,
      fun b _ => rfl, fun b h => h⟩
  | cons p rest ih =>
    intro tgt hnd
    simp only [List.map_cons, List.nodup_cons] at hnd
    rw [List.foldl_cons]
    refine ⟨?_, ?_, ?_⟩
    · intro b tv sv h1 h2
      by_cases hb : p.1 = b
      · subst hb
        rw [assocLookup_cons, if_pos rfl] at h2
        obtain rfl : p.2 = sv := Option.some.inj h2
        rw [h1]
        have hnone : assocLookup p.1 rest = none :=
          assocLookup_not_mem_keys hnd.1
        rw [(ih _ hnd.2).2.1 p.1 hnone]
        exact assocLookup_updateKey_self _ h1
      · rw [assocLookup_cons, if_neg hb] at h2
        cases hl : assocLookup p.1 tgt with
        | none => exact (ih _ hnd.2).1 b tv sv h1 h2
        | some cur =>
          refine (ih _ hnd.2).1 b tv sv ?_ h2
          rw [assocLookup_updateKey_ne _ _ fun hh => hb hh.symm]
          exact h1
    · intro b h
      rw [assocLookup_cons] at h
      by_cases hb : p.1 = b
      · rw [if_pos hb] at h
        cases h
      · rw [if_neg hb] at h
        cases hl : assocLookup p.1 tgt with
        | none => exact (ih _ hnd.2).2.1 b h
        | some cur =>
          rw [(ih _ hnd.2).2.1 b h]
          exact assocLookup_updateKey_ne _ _ fun hh => hb hh.symm
    · intro b h
      cases hl : assocLookup p.1 tgt with
      | none => exact (ih _ hnd.2).2.2 b h
      | some cur =>
        refine (ih _ hnd.2).2.2 b ?_
        exact assocLookup_updateKey_none _ h

theorem mem_zip_of_get {α β : Type} :
    ∀ (l₁ : List α) (l₂ : List β) (i : Nat) (h1 : i < l₁.length)
      (h2 : i < l₂.length), (l₁.get ⟨i, h1⟩, l₂.get ⟨i, h2⟩) ∈ l₁.zip l₂ := by
  intro l₁
  induction l₁ with
  | nil => intro l₂ i h1; simp at h1
  | cons a l ih =>
    intro l₂ i h1 h2
    cases l₂ with
    | nil => simp at h2
    | cons b l' =>
      cases i with
      | zero => exact List.mem_cons_self _ _
      | succ n =>
        exact List.mem_cons_of_mem _ (ih l' n (Nat.lt_of_succ_lt_succ h1)
          (Nat.lt_of_succ_lt_succ h2))

theorem mapM_merge_error :
    ∀ (l : List (RouteMap × RouteMap)),
      (∃ p ∈ l, mergeOneRouteMap p.1 p.2 = .error ()) →
      (l.mapM fun p => mergeOneRouteMap p.1 p.2) = .error () := by
  intro l
  induction l with
  | nil =>
    rintro ⟨p, hp, -⟩
    cases hp
  | cons q rest ih =>
    rintro ⟨p, hp, herr⟩
    rw [List.mapM_cons]
    rcases List.mem_cons.1 hp with rfl | hp
    · rw [herr]
      rfl
    · cases hq : mergeOneRouteMap q.1 q.2 with
      | error e =>
        cases e
        rfl
      | ok v =>
        show (rest.mapM fun p => mergeOneRouteMap p.1 p.2) >>= _ = _
        rw [ih ⟨p, hp, herr⟩]
        rfl

/-- C10: mounting a router without a prefix fails with an exception when
for some method index the target's static map is non-empty and the
source's static map has a key absent from the target — the merge
dereferences `.callbacks` of a missing target entry, so the whole mount
operation errors instead of adding or skipping the source-only key. -/
theorem C10_mount_missing_key_error (tgts srcs : List RouteMap) (i : Nat)
    (hi : i < tgts.length) (hi' : i < srcs.length) (k : String)
    (sv : List Handler)
    (h1 : (tgts.get ⟨i, hi⟩).staticRouteMap ≠ [])
    (h2 : assocLookup k (srcs.get ⟨i, hi'⟩).staticRouteMap = some sv)
    (h3 : assocLookup k (tgts.get ⟨i, hi⟩).staticRouteMap = none) :
    mergeRouterMaps tgts srcs = .error () := by
  have hstat : mergeStaticMaps (tgts.get ⟨i, hi⟩).staticRouteMap
      (srcs.get ⟨i, hi'⟩).staticRouteMap = .error () := by
    unfold mergeStaticMaps
    rw [if_neg (by simpa [List.length_eq_zero] using h1)]
    exact mergeStatic_fold_error _ _ k h3 (by rw [h2]; rfl)
  have hone : mergeOneRouteMap (tgts.get ⟨i, hi⟩) (srcs.get ⟨i, hi'⟩) =
      .error () := by
    unfold mergeOneRouteMap
    rw [hstat]
    rfl
  exact mapM_merge_error _ ⟨_, mem_zip_of_get tgts srcs i hi hi', hone⟩

theorem C10_mount_missing_key_error_witness :
    (([⟨[("/t", [⟨1, .ret false⟩])], []⟩] : List RouteMap).get
          ⟨0, by decide⟩).staticRouteMap ≠ [] ∧
    assocLookup "/s"
        (([⟨[("/s", [⟨2, .ret false⟩])], []⟩] : List RouteMap).get
          ⟨0, by decide⟩).staticRouteMap = some [⟨2, .ret false⟩] ∧
    assocLookup "/s"
        (([⟨[("/t", [⟨1, .ret false⟩])], []⟩] : List RouteMap).get
          ⟨0, by decide⟩).staticRouteMap = none ∧
    mergeRouterMaps [⟨[("/t", [⟨1, .ret false⟩])], []⟩]
        [⟨[("/s", [⟨2, .ret false⟩])], []⟩] = .error () :=
  ⟨by decide, by decide, by decide,
    C10_mount_missing_key_error [⟨[("/t", [⟨1, .ret false⟩])], []⟩]
      [⟨[("/s", [⟨2, .ret false⟩])], []⟩] 0 (by decide) (by decide) "/s"
      [⟨2, .ret false⟩] (by decide) (by decide) (by decide)⟩

/-- C8: the no-prefix mount merges method-by-method: an empty target
static map receives the source's static map wholesale; otherwise each
key present in both maps gets the source chain concatenated after the
target chain; an empty target partition map receives the source's
wholesale; otherwise buckets present in both are concatenated (source
entries after target entries) and buckets present only in the source are
not merged into the non-empty target partition map. -/
theorem C8_merge_semantics (tgt src m : RouteMap)
    (hnds : (src.staticRouteMap.map Prod.fst).Nodup)
    (hndn : (src.namedRoutePartitionMap.map Prod.fst).Nodup)
    (hok : mergeOneRouteMap tgt src = .ok m) :
    (tgt.staticRouteMap = [] → m.staticRouteMap = src.staticRouteMap) ∧
    (∀ k tv sv, assocLookup k tgt.staticRouteMap = some tv →
      assocLookup k src.staticRouteMap = some sv →
      assocLookup k m.staticRouteMap = some (tv ++ sv)) ∧
    (tgt.namedRoutePartitionMap = [] →
      m.namedRoutePartitionMap = src.namedRoutePartitionMap) ∧
    (∀ b tv sv, assocLookup b tgt.namedRoutePartitionMap = some tv →
      assocLookup b src.namedRoutePartitionMap = some sv →
      assocLookup b m.namedRoutePartitionMap = some (tv ++ sv)) ∧
    (∀ b, tgt.namedRoutePartitionMap ≠ [] →
      assocLookup b tgt.namedRoutePartitionMap = none →
      assocLookup b m.namedRoutePartitionMap = none) := by
  unfold mergeOneRouteMap at hok
  cases hms : mergeStaticMaps tgt.staticRouteMap src.staticRouteMap with
  | error e =>
    rw [hms] at hok
    cases hok
  | ok st =>
    rw [hms] at hok
    obtain rfl : (⟨st, mergeNamedMaps tgt.namedRoutePartitionMap
        src.namedRoutePartitionMap⟩ : RouteMap) = m := by
      simpa [Except.map] using hok
    refine ⟨?_, ?_, ?_, ?_, ?_⟩
    · intro hempty
      unfold mergeStaticMaps at hms
      rw [hempty] at hms
      simpa using (Except.ok.inj hms).symm
    · intro k tv sv h1 h2
      have hne : tgt.staticRouteMap.length ≠ 0 := by
        intro h0
        rw [List.length_eq_zero.1 h0] at h1
        cases h1
      unfold mergeStaticMaps at hms
      rw [if_neg hne] at hms
      exact (mergeStatic_fold_ok _ _ _ hnds hms).1 k tv sv h1 h2
    · intro hempty
      show mergeNamedMaps tgt.namedRoutePartitionMap src.namedRoutePartitionMap =
        src.namedRoutePartitionMap
      unfold mergeNamedMaps
      rw [hempty]
      rfl
    · intro b tv sv h1 h2
      have hne : tgt.namedRoutePartitionMap.length ≠ 0 := by
        intro h0
        rw [List.length_eq_zero.1 h0] at h1
        cases h1
      show assocLookup b (mergeNamedMaps _ _) = _
      unfold mergeNamedMaps
      rw [if_neg hne]
      exact (mergeNamed_fold_props _ _ hndn).1 b tv sv h1 h2
    · intro b hne0 h1
      have hne : tgt.namedRoutePartitionMap.length ≠ 0 := by
        simpa [List.length_eq_zero] using hne0
      show assocLookup b (mergeNamedMaps _ _) = none
      unfold mergeNamedMaps
      rw [if_neg hne]
      exact (mergeNamed_fold_props _ _ hndn).2.2 b h1

theorem C8_merge_semantics_witness :
    (mergeOneRouteMap
        ⟨[("/t", [⟨1, .ret false⟩])], [(1, [⟨"k", [], [], ["t"], false⟩])]⟩
        ⟨[("/t", [⟨2, .ret false⟩])],
          [(1, [⟨"k", [], [], [":u"], false⟩]),
            (2, [⟨"k", [], [], [":u", "v"], false⟩])]⟩ =
      .ok ⟨[("/t", [⟨1, .ret false⟩, ⟨2, .ret false⟩])],
        [(1, [⟨"k", [], [], ["t"], false⟩, ⟨"k", [], [], [":u"], false⟩])]⟩) ∧
    assocLookup "/t"
        (⟨[("/t", [⟨1, .ret false⟩, ⟨2, .ret false⟩])],
          [(1, [⟨"k", [], [], ["t"], false⟩, ⟨"k", [], [], [":u"], false⟩])]⟩ :
          RouteMap).staticRouteMap =
      some ([⟨1, .ret false⟩] ++ [⟨2, .ret false⟩]) ∧
    assocLookup 1
        (⟨[("/t", [⟨1, .ret false⟩, ⟨2, .ret false⟩])],
          [(1, [⟨"k", [], [], ["t"], false⟩, ⟨"k", [], [], [":u"], false⟩])]⟩ :
          RouteMap).namedRoutePartitionMap =
      some ([⟨"k", [], [], ["t"], false⟩] ++ [⟨"k", [], [], [":u"], false⟩]) ∧
    assocLookup 2
        (⟨[("/t", [⟨1, .ret false⟩, ⟨2, .ret false⟩])],
          [(1, [⟨"k", [], [], ["t"], false⟩, ⟨"k", [], [], [":u"], false⟩])]⟩ :
          RouteMap).namedRoutePartitionMap = none :=
  ⟨by decide,
    (C8_merge_semantics
        ⟨[("/t", [⟨1, .ret false⟩])], [(1, [⟨"k", [], [], ["t"], false⟩])]⟩
        ⟨[("/t", [⟨2, .ret false⟩])],
          [(1, [⟨"k", [], [], [":u"], false⟩]),
            (2, [⟨"k", [], [], [":u", "v"], false⟩])]⟩
        ⟨[("/t", [⟨1, .ret false⟩, ⟨2, .ret false⟩])],
          [(1, [⟨"k", [], [], ["t"], false⟩, ⟨"k", [], [], [":u"], false⟩])]⟩
        (by decide) (by decide) (by decide)).2.1 "/t"
      [⟨1, .ret false⟩] [⟨2, .ret false⟩] (by decide) (by decide),
    (C8_merge_semantics
        ⟨[("/t", [⟨1, .ret false⟩])], [(1, [⟨"k", [], [], ["t"], false⟩])]⟩
        ⟨[("/t", [⟨2, .ret false⟩])],
          [(1, [⟨"k", [], [], [":u"], false⟩]),
            (2, [⟨"k", [], [], [":u", "v"], false⟩])]⟩
        ⟨[("/t", [⟨1, .ret false⟩, ⟨2, .ret false⟩])],
          [(1, [⟨"k", [], [], ["t"], false⟩, ⟨"k", [], [], [":u"], false⟩])]⟩
        (by decide) (by decide) (by decide)).2.2.2.1 1
      [⟨"k", [], [], ["t"], false⟩] [⟨"k", [], [], [":u"], false⟩] (by decide)
      (by decide),
    (C8_merge_semantics
        ⟨[("/t", [⟨1, .ret false⟩])], [(1, [⟨"k", [], [], ["t"], false⟩])]⟩
        ⟨[("/t", [⟨2, .ret false⟩])],
          [(1, [⟨"k", [], [], [":u"], false⟩]),
            (2, [⟨"k", [], [], [":u", "v"], false⟩])]⟩
        ⟨[("/t", [⟨1, .ret false⟩, ⟨2, .ret false⟩])],
          [(1, [⟨"k", [], [], ["t"], false⟩, ⟨"k", [], [], [":u"], false⟩])]⟩
        (by decide) (by decide) (by decide)).2.2.2.2 2
      (by decide) (by decide)⟩

/-! ## Claim C6: 404 and exception coercion -/

theorem fastScan_snd_indep :
    ∀ (l : List (String × String)) (bag bag' : List (String × String)),
      (fastScan l bag).2 = (fastScan l bag').2 := by
  intro l
  induction l with
  | nil => intro bag bag'; rfl
  | cons q rest ih =>
    intro bag bag'
    unfold fastScan
    by_cases hc : startsWithColon q.2
    · simp only [hc, if_true]
      exact ih _ _
    · by_cases he : q.1 = q.2 <;> simp only [hc, he, if_true, if_false,
        Bool.false_eq_true]
      exact ih _ _

theorem fastPathMatch_snd_indep (pn kn : List String)
    (bag bag' : List (String × String)) :
    (fastPathMatch pn kn bag).2 = (fastPathMatch pn kn bag').2 := by
  unfold fastPathMatch
  by_cases h : kn.length = pn.length
  · simp only [h, if_pos rfl]
    exact fastScan_snd_indep _ _ _
  · simp [h]

theorem attach_snd_indep (uri : String) (params : List String) (key : String)
    (bag bag' : List (String × String)) :
    (attachPathParamsToRequestIfExists uri params key bag).2 =
      (attachPathParamsToRequestIfExists uri params key bag').2 := by
  unfold attachPathParamsToRequestIfExists
  by_cases hk : key = ""
  · simp [hk]
  · simp only [hk, if_false]
    cases execFrom (parseKey key.data) uri.data <;> rfl

/-- Whether one dynamic entry matches the normalized URL — the match
outcome of the two strategies is independent of the incoming parameter
bag, so it is evaluated here on an empty bag. -/
def entryMatches (url : String) (pns : List String) (e : RouteEntry) : Bool :=
  if !e.useRegex then (fastPathMatch pns e.pathNames []).2
  else (attachPathParamsToRequestIfExists url e.params e.key []).2

theorem scanEntries_nomatch :
    ∀ (entries : List RouteEntry) (mw : List Handler) (url : String)
      (pns : List String) (st : HttpState),
      (∀ e ∈ entries, entryMatches url pns e = false) →
      (scanEntries mw url pns entries st).2 = .fell := by
  intro entries
  induction entries with
  | nil => intro mw url pns st _; rfl
  | cons e rest ih =>
    intro mw url pns st h
    have hm : (if !e.useRegex then fastPathMatch pns e.pathNames st.params
        else attachPathParamsToRequestIfExists url e.params e.key st.params).2 =
          false := by
      have he := h e (List.mem_cons_self _ _)
      unfold entryMatches at he
      by_cases hr : e.useRegex
      · simp only [hr, Bool.not_true, Bool.false_eq_true, if_false] at he ⊢
        rw [attach_snd_indep url e.params e.key st.params []]
        exact he
      · simp only [eq_false_of_ne_true hr, Bool.not_false, if_true] at he ⊢
        rw [fastPathMatch_snd_indep pns e.pathNames st.params []]
        exact he
    rw [scanEntries]
    simp only [hm, Bool.false_eq_true, if_false]
    exact ih mw url pns _ fun x hx => h x (List.mem_cons_of_mem _ hx)

/-- C6: for a supported method, (1) a request matching no static key and
no dynamic entry of its bucket gets the 404 response with plain-text body
"Route not found"; (2) an exception thrown from a matched static chain is
caught and coerced into that same 404 response; (3) an exception thrown
from a matched dynamic chain is also coerced into the same 404 response —
per-request errors never escape `processHTTPMethod`. -/
theorem C6_not_found_and_exception_coercion :
    (∀ (mw : List Handler) (rm : RouteMap) (url : String),
      assocLookup (normalizeURL url) rm.staticRouteMap = none →
      (∀ entries,
        assocLookup ((splitStr '/' (normalizeURL url)).drop 1).length
          rm.namedRoutePartitionMap = some entries →
        entries ≠ [] ∧ ∀ e ∈ entries,
          entryMatches (normalizeURL url)
            ((splitStr '/' (normalizeURL url)).drop 1) e = false) →
      (processHTTPMethod mw rm url true).status = some 404 ∧
      (processHTTPMethod mw rm url true).body = some "Route not found" ∧
      (processHTTPMethod mw rm url true).ended = true) ∧
    (∀ (mw : List Handler) (s : List (String × List Handler))
      (pm : List (Nat × List RouteEntry)) (url : String) (tonf : Bool)
      (pre : List Handler) (h : Handler) (post : List Handler),
      assocLookup (normalizeURL url) s = some (pre ++ h :: post) →
      (∀ g ∈ pre, g.res = .ret false) → h.res = .exn →
      (∀ m ∈ mw, m.res ≠ .exn) →
      (processHTTPMethod mw ⟨s, pm⟩ url tonf).status = some 404 ∧
      (processHTTPMethod mw ⟨s, pm⟩ url tonf).body = some "Route not found" ∧
      (processHTTPMethod mw ⟨s, pm⟩ url tonf).ended = true) ∧
    (∀ (mw : List Handler) (rm : RouteMap) (url : String) (tonf : Bool)
      (e : RouteEntry) (rest : List RouteEntry) (pre : List Handler)
      (h : Handler) (post : List Handler),
      assocLookup (normalizeURL url) rm.staticRouteMap = none →
      assocLookup ((splitStr '/' (normalizeURL url)).drop 1).length
        rm.namedRoutePartitionMap = some (e :: rest) →
      entryMatches (normalizeURL url)
        ((splitStr '/' (normalizeURL url)).drop 1) e = true →
      e.callbacks = pre ++ h :: post →
      (∀ g ∈ pre, g.res = .ret false) → h.res = .exn →
      (∀ m ∈ mw, m.res ≠ .exn) →
      (processHTTPMethod mw rm url tonf).status = some 404 ∧
      (processHTTPMethod mw rm url tonf).body = some "Route not found" ∧
      (processHTTPMethod mw rm url tonf).ended = true) := by
  refine ⟨?_, ?_, ?_⟩
  · intro mw rm url hstat hdyn
    unfold processHTTPMethod
    cases hb : assocLookup ((splitStr '/' (normalizeURL url)).drop 1).length
        rm.namedRoutePartitionMap with
    | none =>
      have hb' : assocLookup ((splitStr '/' (normalizeURL url)).length - 1)
          rm.namedRoutePartitionMap = none := by simpa using hb
      simp [hstat, hb', write404]
    | some entries =>
      obtain ⟨hne, hnm⟩ := hdyn entries hb
      have hb' : assocLookup ((splitStr '/' (normalizeURL url)).length - 1)
          rm.namedRoutePartitionMap = some entries := by simpa using hb
      have hscan := scanEntries_nomatch entries mw (normalizeURL url)
        ((splitStr '/' (normalizeURL url)).drop 1) {} hnm
      have hscan' : (scanEntries mw (normalizeURL url)
          (splitStr '/' (normalizeURL url)).tail entries
          { params := [], executed := [], status := none, body := none,
            ended := false }).2 = .fell := by simpa using hscan
      simp [hstat, hb', hne, hscan', write404]
  · intro mw s pm url tonf pre h post hs hpre hh hmw
    unfold processHTTPMethod
    simp only [hs]
    unfold staticBranch
    simp only [runMiddlewares_no_exn hmw, runChain_exn h post hpre hh]
    simp [List.length_append, write404]
  · intro mw rm url tonf e rest pre h post hstat hb hmatch hcb hpre hh hmw
    have hb' : assocLookup ((splitStr '/' (normalizeURL url)).length - 1)
        rm.namedRoutePartitionMap = some (e :: rest) := by simpa using hb
    have hlen2 : ¬e.callbacks.length = 0 := by
      rw [hcb]
      simp
    by_cases hr : e.useRegex
    · have hm2 : (attachPathParamsToRequestIfExists (normalizeURL url)
          e.params e.key []).2 = true := by
        simpa [entryMatches, hr] using hmatch
      unfold processHTTPMethod
      simp [hstat, hb', scanEntries, hr, hm2, runMiddlewares_no_exn hmw, hcb,
        hlen2, runChain_exn h post hpre hh, write404]
    · have hm2 : (fastPathMatch (splitStr '/' (normalizeURL url)).tail
          e.pathNames []).2 = true := by
        simpa [entryMatches, hr] using hmatch
      unfold processHTTPMethod
      simp [hstat, hb', scanEntries, hr, hm2, runMiddlewares_no_exn hmw, hcb,
        hlen2, runChain_exn h post hpre hh, write404]

theorem C6_not_found_and_exception_coercion_witness :
    ((processHTTPMethod [] RouteMap.empty "/nope" true).status = some 404 ∧
      (processHTTPMethod [] RouteMap.empty "/nope" true).body =
        some "Route not found" ∧
      (processHTTPMethod [] RouteMap.empty "/nope" true).ended = true) ∧
    ((processHTTPMethod [] ⟨[("/e", [⟨5, .exn⟩])], []⟩ "/e" true).status =
        some 404 ∧
      (processHTTPMethod [] ⟨[("/e", [⟨5, .exn⟩])], []⟩ "/e" true).body =
        some "Route not found" ∧
      (processHTTPMethod [] ⟨[("/e", [⟨5, .exn⟩])], []⟩ "/e" true).ended =
        true) ∧
    ((processHTTPMethod []
        ⟨[], [(1, [⟨"", [], [⟨6, .exn⟩], [":z"], false⟩])]⟩ "/q" true).status =
        some 404 ∧
      (processHTTPMethod []
        ⟨[], [(1, [⟨"", [], [⟨6, .exn⟩], [":z"], false⟩])]⟩ "/q" true).body =
        some "Route not found" ∧
      (processHTTPMethod []
        ⟨[], [(1, [⟨"", [], [⟨6, .exn⟩], [":z"], false⟩])]⟩ "/q" true).ended =
        true) :=
  ⟨C6_not_found_and_exception_coercion.1 [] RouteMap.empty "/nope" (by decide)
      (by decide),
    C6_not_found_and_exception_coercion.2.1 [] [("/e", [⟨5, .exn⟩])] [] "/e"
      true [] ⟨5, .exn⟩ [] (by decide) (by decide) (by decide) (by decide),
    C6_not_found_and_exception_coercion.2.2 []
      ⟨[], [(1, [⟨"", [], [⟨6, .exn⟩], [":z"], false⟩])]⟩ "/q" true
      ⟨"", [], [⟨6, .exn⟩], [":z"], false⟩ [] [] ⟨6, .exn⟩ [] (by decide)
      (by decide) (by decide) (by decide) (by decide) (by decide) (by decide)⟩

/-! ## Claim C9: parameter-bag writes of failed matches persist -/

/-- The parameter-bag writes produced by matching the given
(URL-segment, pattern-segment) pairs: one `(name, value)` pair per
`:`-token. -/
def writesOf (l : List (String × String)) : List (String × String) :=
  l.filterMap fun q =>
    if startsWithColon q.2 then some (dropFirst q.2, q.1) else none

theorem fastScan_prefix :
    ∀ (l rest bag : List (String × String)),
      (∀ q ∈ l, startsWithColon q.2 = true ∨ q.1 = q.2) →
      fastScan (l ++ rest) bag = fastScan rest ((writesOf l).reverse ++ bag) := by
  intro l
  induction l with
  | nil => intro rest bag _; rfl
  | cons q l' ih =>
    intro rest bag h
    have htail : ∀ x ∈ l', startsWithColon x.2 = true ∨ x.1 = x.2 :=
      fun x hx => h x (List.mem_cons_of_mem _ hx)
    by_cases hc : startsWithColon q.2
    · rw [List.cons_append, fastScan, if_pos hc,
        ih rest ((dropFirst q.2, q.1) :: bag) htail]
      have hw : writesOf (q :: l') = (dropFirst q.2, q.1) :: writesOf l' := by
        simp [writesOf, hc]
      rw [hw, List.reverse_cons, List.append_assoc, List.singleton_append]
    · rcases h q (List.mem_cons_self _ _) with hc' | he
      · exact absurd hc' hc
      · rw [List.cons_append, fastScan, if_neg hc, if_pos he,
          ih rest bag htail]
        have hw : writesOf (q :: l') = writesOf l' := by
          simp [writesOf, hc]
        rw [hw]

theorem writesOf_reverse (l : List (String × String)) :
    writesOf l.reverse = (writesOf l).reverse := by
  simp [writesOf, List.filterMap_reverse]

/-- C9: a failed positional match is not atomic for the parameter bag.
If the right-to-left scan of `fastPathMatch` hits a literal mismatch at
some position after `:`-positions have already been compared, the match
fails but every capture taken before the mismatch is written into the
returned bag; moreover, in a full dispatch those stale writes persist
into the bag seen by the entry that ultimately matches (registering
`/a/:x` then `/b/:y` and dispatching `/b/v` leaves both `x = "v"` and
`y = "v"` in the final parameter bag). -/
theorem C9_failed_match_writes_persist :
    (∀ (s1 s2 k1 k2 : List String) (si ki : String)
      (bag : List (String × String)),
      s1.length = k1.length → s2.length = k2.length →
      startsWithColon ki = false → si ≠ ki →
      (∀ q ∈ s2.zip k2, startsWithColon q.2 = true ∨ q.1 = q.2) →
      fastPathMatch (s1 ++ si :: s2) (k1 ++ ki :: k2) bag =
        (writesOf (s2.zip k2) ++ bag, false) ∧
      ∀ q ∈ s2.zip k2, startsWithColon q.2 = true →
        (dropFirst q.2, q.1) ∈ writesOf (s2.zip k2) ++ bag) ∧
    (assocLookup "x"
        (processHTTPMethod []
          (buildRequestMap (buildRequestMap RouteMap.empty "/a/:x"
            [⟨1, .ret false⟩]) "/b/:y" [⟨2, .ret false⟩]) "/b/v").params =
      some "v" ∧
    assocLookup "y"
        (processHTTPMethod []
          (buildRequestMap (buildRequestMap RouteMap.empty "/a/:x"
            [⟨1, .ret false⟩]) "/b/:y" [⟨2, .ret false⟩]) "/b/v").params =
      some "v" ∧
    (processHTTPMethod []
        (buildRequestMap (buildRequestMap RouteMap.empty "/a/:x"
          [⟨1, .ret false⟩]) "/b/:y" [⟨2, .ret false⟩]) "/b/v").executed =
      [2]) := by
  constructor
  · intro s1 s2 k1 k2 si ki bag h1 h2 hki hne hmat
    have hlen : (k1 ++ ki :: k2).length = (s1 ++ si :: s2).length := by
      simp [h1, h2]
    have hzip : (s1 ++ si :: s2).zip (k1 ++ ki :: k2) =
        s1.zip k1 ++ (si, ki) :: s2.zip k2 := by
      rw [List.zip_append h1]
      rfl
    constructor
    · unfold fastPathMatch
      rw [if_pos hlen, hzip, List.reverse_append, List.reverse_cons,
        List.append_assoc, List.singleton_append,
        fastScan_prefix _ _ bag (by
          intro q hq
          exact hmat q (List.mem_reverse.1 hq))]
      rw [fastScan, if_neg (by simpa using hki), if_neg hne]
      rw [writesOf_reverse, List.reverse_reverse]
    · intro q hq hcolon
      refine List.mem_append_left _ ?_
      unfold writesOf
      exact List.mem_filterMap.2 ⟨q, hq, by rw [if_pos hcolon]⟩
  · exact ⟨by decide, by decide, by decide⟩

theorem C9_failed_match_writes_persist_witness :
    (([] : List String).length = ([] : List String).length ∧
      (["v"] : List String).length = ([":x"] : List String).length ∧
      startsWithColon "a" = false ∧ "b" ≠ "a" ∧
      (∀ q ∈ (["v"] : List String).zip [":x"],
        startsWithColon q.2 = true ∨ q.1 = q.2)) ∧
    (fastPathMatch ([] ++ "b" :: ["v"]) ([] ++ "a" :: [":x"]) [] =
        (writesOf ((["v"] : List String).zip [":x"]) ++ [], false) ∧
      ∀ q ∈ (["v"] : List String).zip [":x"],
        startsWithColon q.2 = true →
          (dropFirst q.2, q.1) ∈ writesOf ((["v"] : List String).zip [":x"]) ++
            ([] : List (String × String))) :=
  ⟨⟨by decide, by decide, by decide, by decide, by decide⟩,
    C9_failed_match_writes_persist.1 [] ["v"] [] [":x"] "b" "a" []
      (by decide) (by decide) (by decide) (by decide) (by decide)⟩

/-! ## Claim C5: equivalence of the two matching strategies -/

/-- The characters of the URL `"/" + seg₀ + "/" + seg₁ + ...` built from
its segments. -/
def urlChars (segs : List String) : List Char :=
  (segs.map fun s => '/' :: s.data).flatten

/-- The characters of the regex key built for a pattern with path
segments `pn`: each segment contributes a `/` followed by either the
capture-group text (for `:`-tokens) or its literal characters. -/
def keyChars (pn : List String) : List Char :=
  (pn.map fun t =>
    '/' :: (if startsWithColon t then groupStr.data else t.data)).flatten

/-- The regex-token list corresponding to `keyChars`. -/
def tokList (pn : List String) : List RTok :=
  (pn.map fun t =>
    RTok.lit '/' :: (if startsWithColon t then [RTok.grp]
      else t.data.map RTok.lit)).flatten

/-- The parameter names collected by `createNamedRouteSearchKey`. -/
def paramNames (pn : List String) : List String :=
  pn.filterMap fun t =>
    if startsWithColon t then some (dropFirst t) else none

theorem createKey_fold :
    ∀ (pn : List String) (ps : List String) (s : String),
      (pn.foldl
        (fun (acc : List String × String) token =>
          if startsWithColon token then
            (acc.1 ++ [dropFirst token], acc.2 ++ "/" ++ groupStr)
          else (acc.1, acc.2 ++ "/" ++ token))
        (ps, s)).1 = ps ++ paramNames pn ∧
      (pn.foldl
        (fun (acc : List String × String) token =>
          if startsWithColon token then
            (acc.1 ++ [dropFirst token], acc.2 ++ "/" ++ groupStr)
          else (acc.1, acc.2 ++ "/" ++ token))
        (ps, s)).2.data = s.data ++ keyChars pn := by
  intro pn
  induction pn with
  | nil => intro ps s; simp [paramNames, keyChars]
  | cons t rest ih =>
    intro ps s
    rw [List.foldl_cons]
    by_cases hc : startsWithColon t
    · rw [if_pos hc]
      obtain ⟨h1, h2⟩ := ih (ps ++ [dropFirst t]) (s ++ "/" ++ groupStr)
      refine ⟨?_, ?_⟩
      · rw [h1]
        simp [paramNames, hc]
      · rw [h2]
        simp [keyChars, hc, String.data_append]
    · rw [if_neg hc]
      obtain ⟨h1, h2⟩ := ih ps (s ++ "/" ++ t)
      refine ⟨?_, ?_⟩
      · rw [h1]
        simp [paramNames, hc]
      · rw [h2]
        simp [keyChars, hc, String.data_append]

theorem createKey_spec (pn : List String) :
    (createNamedRouteSearchKey ("" :: pn)).1 = paramNames pn ∧
    (createNamedRouteSearchKey ("" :: pn)).2.data = keyChars pn := by
  unfold createNamedRouteSearchKey
  rw [if_neg (by simp)]
  rw [List.foldl_cons]
  have hfirst : (if startsWithColon "" then
      (([] : List String) ++ [dropFirst ""], "" ++ "/" ++ groupStr)
      else (([] : List String), "" ++ "/" ++ "")) = ([], "/") := by decide
  rw [hfirst]
  obtain ⟨h1, h2⟩ := createKey_fold pn [] "/"
  refine ⟨by simpa using h1, ?_⟩
  have hdf : ∀ s : String, (dropFirst s).data = s.data.drop 1 := fun _ => rfl
  rw [hdf, h2]
  rfl

theorem parseKey_grp (rest : List Char) :
    parseKey (groupStr.data ++ rest) = RTok.grp :: parseKey rest := by
  have h : groupStr.data =
      ['(', '[', '\\', 'w', '-', '.', '~', ']', '+', ')'] := by decide
  rw [h]
  rfl

set_option maxHeartbeats 2000000 in
theorem parseKey_lit (c : Char) (rest : List Char) (h : ¬c = '(') :
    parseKey (c :: rest) = RTok.lit c :: parseKey rest := by
  rw [parseKey.eq_def]
  split
  · rename_i heq
    exact absurd heq (by simp)
  · rename_i heq
    exact absurd (List.cons.inj heq).1 h
  · rename_i heq
    obtain ⟨rfl, rfl⟩ := List.cons.inj heq
    rfl

theorem parseKey_lits_append :
    ∀ (l rest : List Char), (∀ c ∈ l, ¬c = '(') →
      parseKey (l ++ rest) = l.map RTok.lit ++ parseKey rest := by
  intro l
  induction l with
  | nil => intro rest _; rfl
  | cons c cs ih =>
    intro rest h
    rw [List.cons_append, parseKey_lit c _ (h c (List.mem_cons_self _ _)),
      ih rest fun d hd => h d (List.mem_cons_of_mem _ hd)]
    rfl

theorem parse_keyChars :
    ∀ pn : List String,
      (∀ t ∈ pn, ∀ c ∈ t.data, (wordChar c || c = ':') = true) →
      parseKey (keyChars pn) = tokList pn := by
  intro pn
  induction pn with
  | nil => intro _; rfl
  | cons t rest ih =>
    intro h
    have htail := fun x hx => h x (List.mem_cons_of_mem _ hx)
    have hkc : keyChars (t :: rest) =
        '/' :: ((if startsWithColon t then groupStr.data else t.data) ++
          keyChars rest) := by
      simp [keyChars]
    have htl : tokList (t :: rest) =
        RTok.lit '/' :: ((if startsWithColon t then [RTok.grp]
          else t.data.map RTok.lit) ++ tokList rest) := by
      simp [tokList]
    rw [hkc, htl, parseKey_lit '/' _ (by decide)]
    by_cases hc : startsWithColon t
    · rw [if_pos hc, if_pos hc, parseKey_grp, ih htail]
      rfl
    · rw [if_neg hc, if_neg hc]
      have hne : ∀ c ∈ t.data, ¬c = '(' := by
        intro c hcm hcp
        have := h t (List.mem_cons_self _ _) c hcm
        subst hcp
        exact absurd this (by decide)
      rw [parseKey_lits_append _ _ hne, ih htail]

/-- The capture values the regex extracts: the URL segments sitting at
`:`-token positions, left to right. -/
def capVals (segs pn : List String) : List String :=
  (segs.zip pn).filterMap fun q => if startsWithColon q.2 then some q.1 else none

theorem urlChars_cons (s : String) (segs : List String) :
    urlChars (s :: segs) = '/' :: (s.data ++ urlChars segs) := by
  simp [urlChars]

theorem matchFrom_nil (cs : List Char) : matchFrom [] cs = some [] := by
  cases cs <;> rfl

theorem matchFrom_lit_cons (c : Char) (rest : List RTok) (x : Char)
    (xs : List Char) :
    matchFrom (RTok.lit c :: rest) (x :: xs) =
      if x = c then matchFrom rest xs else none := rfl

theorem matchFrom_grp (rest : List RTok) (cs : List Char) :
    matchFrom (RTok.grp :: rest) cs =
      tryLens (matchFrom rest) cs ((cs.takeWhile wordChar).length) := by
  cases cs <;> rfl

theorem tryLens_succ (f : List Char → Option (List String)) (cs : List Char)
    (n : Nat) :
    tryLens f cs (n + 1) =
      match f (cs.drop (n + 1)) with
      | some caps => some (⟨cs.take (n + 1)⟩ :: caps)
      | none => tryLens f cs n := rfl

theorem matchFrom_lits :
    ∀ (l : List Char) (toks : List RTok) (cs : List Char),
      matchFrom (l.map RTok.lit ++ toks) (l ++ cs) = matchFrom toks cs := by
  intro l
  induction l with
  | nil => intro toks cs; rfl
  | cons c l' ih =>
    intro toks cs
    rw [List.map_cons, List.cons_append, List.cons_append,
      matchFrom_lit_cons, if_pos rfl]
    exact ih toks cs

theorem takeWhile_append_of_all {a b : List Char}
    (ha : ∀ c ∈ a, wordChar c = true)
    (hb : b = [] ∨ ∃ d tl, b = d :: tl ∧ wordChar d = false) :
    (a ++ b).takeWhile wordChar = a := by
  induction a with
  | nil =>
    rcases hb with rfl | ⟨d, tl, rfl, hd⟩
    · rfl
    · simp [List.takeWhile_cons, hd]
  | cons c cs ih =>
    have hc := ha c (List.mem_cons_self _ _)
    rw [List.cons_append, List.takeWhile_cons, if_pos hc,
      ih fun d hd => ha d (List.mem_cons_of_mem _ hd)]

theorem urlChars_shape (segs : List String) :
    urlChars segs = [] ∨
      ∃ d tl, urlChars segs = d :: tl ∧ wordChar d = false := by
  cases segs with
  | nil => left; rfl
  | cons s rest =>
    right
    exact ⟨'/', s.data ++ urlChars rest, urlChars_cons s rest, by decide⟩

theorem matchFrom_full :
    ∀ (pn segs : List String), segs.length = pn.length →
      (∀ q ∈ segs.zip pn,
        (startsWithColon q.2 = true →
          q.1.data ≠ [] ∧ ∀ c ∈ q.1.data, wordChar c = true) ∧
        (startsWithColon q.2 = false → q.1 = q.2)) →
      matchFrom (tokList pn) (urlChars segs) = some (capVals segs pn) := by
  intro pn
  induction pn with
  | nil =>
    intro segs hlen _
    obtain rfl : segs = [] := List.length_eq_zero.1 hlen
    rfl
  | cons t pn' ih =>
    intro segs hlen hq
    cases segs with
    | nil => simp at hlen
    | cons s segs' =>
      have hlen' : segs'.length = pn'.length := by simpa using hlen
      simp only [List.zip_cons_cons, List.mem_cons] at hq
      have hhead := hq (s, t) (Or.inl rfl)
      have htail : ∀ q ∈ segs'.zip pn',
          (startsWithColon q.2 = true →
            q.1.data ≠ [] ∧ ∀ c ∈ q.1.data, wordChar c = true) ∧
          (startsWithColon q.2 = false → q.1 = q.2) :=
        fun q hqm => hq q (Or.inr hqm)
      have htok : tokList (t :: pn') =
          RTok.lit '/' :: ((if startsWithColon t then [RTok.grp]
            else t.data.map RTok.lit) ++ tokList pn') := by
        simp [tokList]
      rw [htok, urlChars_cons, matchFrom_lit_cons, if_pos rfl]
      by_cases hc : startsWithColon t
      · obtain ⟨hsne, hsafe⟩ := hhead.1 hc
        rw [if_pos hc, List.singleton_append, matchFrom_grp,
          takeWhile_append_of_all hsafe (urlChars_shape segs')]
        cases hs : s.data with
        | nil => exact absurd hs hsne
        | cons d ds =>
          have hnl : (d :: ds).length = ds.length + 1 := rfl
          have hdrop : ((d :: ds) ++ urlChars segs').drop (ds.length + 1) =
              urlChars segs' := by
            rw [← hnl]
            exact List.drop_left _ _
          have htake : ((d :: ds) ++ urlChars segs').take (ds.length + 1) =
              d :: ds := by
            rw [← hnl]
            exact List.take_left _ _
          have hcap : capVals (s :: segs') (t :: pn') =
              s :: capVals segs' pn' := by
            simp [capVals, hc]
          rw [hnl, tryLens_succ, hdrop, ih segs' hlen' htail]
          show some (⟨((d :: ds) ++ urlChars segs').take (ds.length + 1)⟩ ::
              capVals segs' pn') =
            some (capVals (s :: segs') (t :: pn'))
          rw [htake, hcap]
          have hstr : (⟨d :: ds⟩ : String) = s := by
            rw [← hs]
          rw [hstr]
      · have hcf : startsWithColon t = false := by
          cases hb : startsWithColon t
          · rfl
          · exact absurd hb hc
        obtain rfl : s = t := hhead.2 hcf
        rw [if_neg hc, matchFrom_lits, ih segs' hlen' htail]
        have hcap : capVals (s :: segs') (s :: pn') = capVals segs' pn' := by
          simp [capVals, hcf]
        rw [hcap]

theorem execFrom_cons (toks : List RTok) (c : Char) (xs : List Char) :
    execFrom toks (c :: xs) =
      match matchFrom toks (c :: xs) with
      | some caps => some caps
      | none => execFrom toks xs := rfl

theorem foldl_prepend :
    ∀ (l bag : List (String × String)),
      l.foldl (fun b q => q :: b) bag = l.reverse ++ bag := by
  intro l
  induction l with
  | nil => intro bag; rfl
  | cons q rest ih =>
    intro bag
    rw [List.foldl_cons, ih, List.reverse_cons, List.append_assoc,
      List.singleton_append]

theorem paramNames_zip :
    ∀ (pn segs : List String), segs.length = pn.length →
      paramNames pn = (segs.zip pn).filterMap
        fun q => if startsWithColon q.2 then some (dropFirst q.2) else none := by
  intro pn
  induction pn with
  | nil =>
    intro segs h
    obtain rfl := List.length_eq_zero.1 h
    rfl
  | cons t pn' ih =>
    intro segs h
    cases segs with
    | nil => simp at h
    | cons s segs' =>
      have h' : segs'.length = pn'.length := by simpa using h
      by_cases hc : startsWithColon t <;>
        simp [paramNames, List.zip_cons_cons, List.filterMap_cons, hc,
          ← ih segs' h']

theorem names_zip_capVals (pn segs : List String)
    (hlen : segs.length = pn.length) :
    (paramNames pn).zip (capVals segs pn) = writesOf (segs.zip pn) := by
  rw [paramNames_zip pn segs hlen]
  unfold capVals writesOf
  generalize segs.zip pn = zl
  induction zl with
  | nil => rfl
  | cons q rest ih =>
    by_cases hc : startsWithColon q.2 <;> simp [List.filterMap_cons, hc, ih]

theorem writesOf_keys (zl : List (String × String)) :
    (writesOf zl).map Prod.fst = zl.filterMap
      fun q => if startsWithColon q.2 then some (dropFirst q.2) else none := by
  unfold writesOf
  rw [List.map_filterMap]
  congr 1
  funext q
  by_cases hc : startsWithColon q.2 <;> simp [hc]

theorem fastPathMatch_all_match (segs pn : List String)
    (bag : List (String × String)) (hlen : segs.length = pn.length)
    (hmat : ∀ q ∈ segs.zip pn, startsWithColon q.2 = true ∨ q.1 = q.2) :
    fastPathMatch segs pn bag = (writesOf (segs.zip pn) ++ bag, true) := by
  unfold fastPathMatch
  rw [if_pos hlen.symm]
  have hpre := fastScan_prefix ((segs.zip pn).reverse) [] bag
    fun q hq => hmat q (List.mem_reverse.1 hq)
  rw [List.append_nil] at hpre
  rw [hpre, writesOf_reverse, List.reverse_reverse]
  rfl

/-- C5, counterexample: for the safe named pattern `/:x/:x` and its
matching URL `/a/b`, both strategies match, but the positional strategy
leaves `x = "a"` (right-to-left writes, the leftmost capture last) while
the regex strategy leaves `x = "b"` (left-to-right writes): the
parameter bags differ. -/
theorem C5_counterexample :
    (fastPathMatch ["a", "b"] [":x", ":x"] []).2 = true ∧
    (attachPathParamsToRequestIfExists "/a/b"
        (createNamedRouteSearchKey ["", ":x", ":x"]).1
        (createNamedRouteSearchKey ["", ":x", ":x"]).2 []).2 = true ∧
    assocLookup "x" (fastPathMatch ["a", "b"] [":x", ":x"] []).1 = some "a" ∧
    assocLookup "x" (attachPathParamsToRequestIfExists "/a/b"
        (createNamedRouteSearchKey ["", ":x", ":x"]).1
        (createNamedRouteSearchKey ["", ":x", ":x"]).2 []).1 = some "b" := by
  decide

/-- C5, amended: for every named pattern over the safe character class
whose parameter names are pairwise distinct, and every URL that matches
it with nonempty capture-class parameter segments, the positional
strategy (`fastPathMatch`) and the regex strategy
(`attachPathParamsToRequestIfExists` on the key compiled by
`createNamedRouteSearchKey`) both succeed and write extensionally equal
parameter bags into the request. -/
theorem C5_matching_equivalence_amended (pn segs : List String)
    (bag : List (String × String)) (hne : pn ≠ [])
    (hlen : segs.length = pn.length)
    (hsafe : ∀ t ∈ pn, ∀ c ∈ t.data, (wordChar c || c = ':') = true)
    (hmat : ∀ q ∈ segs.zip pn,
      (startsWithColon q.2 = true →
        q.1.data ≠ [] ∧ ∀ c ∈ q.1.data, wordChar c = true) ∧
      (startsWithColon q.2 = false → q.1 = q.2))
    (hnodup : (createNamedRouteSearchKey ("" :: pn)).1.Nodup) :
    (fastPathMatch segs pn bag).2 = true ∧
    (attachPathParamsToRequestIfExists ⟨urlChars segs⟩
        (createNamedRouteSearchKey ("" :: pn)).1
        (createNamedRouteSearchKey ("" :: pn)).2 bag).2 = true ∧
    ∀ k, assocLookup k (fastPathMatch segs pn bag).1 =
      assocLookup k (attachPathParamsToRequestIfExists ⟨urlChars segs⟩
        (createNamedRouteSearchKey ("" :: pn)).1
        (createNamedRouteSearchKey ("" :: pn)).2 bag).1 := by
  obtain ⟨hp, hk⟩ := createKey_spec pn
  have hor : ∀ q ∈ segs.zip pn, startsWithColon q.2 = true ∨ q.1 = q.2 := by
    intro q hq
    by_cases hc : startsWithColon q.2
    · exact Or.inl hc
    · refine Or.inr ((hmat q hq).2 ?_)
      cases h' : startsWithColon q.2
      · rfl
      · exact absurd h' hc
  have hfast := fastPathMatch_all_match segs pn bag hlen hor
  obtain ⟨t0, pn', rfl⟩ : ∃ t0 pn', pn = t0 :: pn' := by
    cases pn with
    | nil => exact absurd rfl hne
    | cons a b => exact ⟨a, b, rfl⟩
  obtain ⟨s0, segs', rfl⟩ : ∃ s0 segs', segs = s0 :: segs' := by
    cases segs with
    | nil => simp at hlen
    | cons a b => exact ⟨a, b, rfl⟩
  have hkshape : keyChars (t0 :: pn') =
      '/' :: ((if startsWithColon t0 then groupStr.data else t0.data) ++
        keyChars pn') := by
    simp [keyChars]
  have hkey_ne : ¬(createNamedRouteSearchKey ("" :: t0 :: pn')).2 = "" := by
    intro h0
    have hd := congrArg String.data h0
    rw [hk, hkshape] at hd
    simp at hd
  have hattach : attachPathParamsToRequestIfExists ⟨urlChars (s0 :: segs')⟩
      (createNamedRouteSearchKey ("" :: t0 :: pn')).1
      (createNamedRouteSearchKey ("" :: t0 :: pn')).2 bag =
      ((writesOf ((s0 :: segs').zip (t0 :: pn'))).reverse ++ bag, true) := by
    unfold attachPathParamsToRequestIfExists
    rw [if_neg hkey_ne]
    have hparse : parseKey (createNamedRouteSearchKey
        ("" :: t0 :: pn')).2.data = tokList (t0 :: pn') := by
      rw [hk]
      exact parse_keyChars _ hsafe
    have hexec : execFrom (tokList (t0 :: pn')) (urlChars (s0 :: segs')) =
        some (capVals (s0 :: segs') (t0 :: pn')) := by
      have hmf := matchFrom_full (t0 :: pn') (s0 :: segs') hlen hmat
      rw [urlChars_cons] at hmf ⊢
      rw [execFrom_cons, hmf]
    have hud : (⟨urlChars (s0 :: segs')⟩ : String).data =
        urlChars (s0 :: segs') := rfl
    rw [hparse, hud, hexec, hp]
    show (List.foldl (fun b q => q :: b) bag
        ((paramNames (t0 :: pn')).zip (capVals (s0 :: segs') (t0 :: pn'))),
      true) = _
    rw [names_zip_capVals (t0 :: pn') (s0 :: segs') hlen, foldl_prepend]
  have hkeys : ((writesOf ((s0 :: segs').zip (t0 :: pn'))).map
      Prod.fst).Nodup := by
    rw [writesOf_keys, ← paramNames_zip _ _ hlen, ← hp]
    exact hnodup
  refine ⟨by rw [hfast], by rw [hattach], ?_⟩
  intro k
  rw [hfast, hattach]
  exact assocLookup_reverse_append hkeys k bag

theorem C5_matching_equivalence_amended_witness :
    ((["user", ":id"] : List String) ≠ [] ∧
      (["user", "42"] : List String).length = (["user", ":id"] : List String).length ∧
      (∀ t ∈ (["user", ":id"] : List String), ∀ c ∈ t.data,
        (wordChar c || c = ':') = true) ∧
      (∀ q ∈ (["user", "42"] : List String).zip ["user", ":id"],
        (startsWithColon q.2 = true →
          q.1.data ≠ [] ∧ ∀ c ∈ q.1.data, wordChar c = true) ∧
        (startsWithColon q.2 = false → q.1 = q.2)) ∧
      (createNamedRouteSearchKey ["", "user", ":id"]).1.Nodup) ∧
    ((fastPathMatch ["user", "42"] ["user", ":id"] []).2 = true ∧
      (attachPathParamsToRequestIfExists ⟨urlChars ["user", "42"]⟩
        (createNamedRouteSearchKey ["", "user", ":id"]).1
        (createNamedRouteSearchKey ["", "user", ":id"]).2 []).2 = true ∧
      assocLookup "id" (fastPathMatch ["user", "42"] ["user", ":id"] []).1 =
        assocLookup "id" (attachPathParamsToRequestIfExists
          ⟨urlChars ["user", "42"]⟩
          (createNamedRouteSearchKey ["", "user", ":id"]).1
          (createNamedRouteSearchKey ["", "user", ":id"]).2 []).1) :=
  ⟨⟨by decide, by decide, by decide, by decide, by decide⟩,
    (C5_matching_equivalence_amended ["user", ":id"] ["user", "42"] []
        (by decide) (by decide) (by decide) (by decide) (by decide)).1,
    (C5_matching_equivalence_amended ["user", ":id"] ["user", "42"] []
        (by decide) (by decide) (by decide) (by decide) (by decide)).2.1,
    (C5_matching_equivalence_amended ["user", ":id"] ["user", "42"] []
        (by decide) (by decide) (by decide) (by decide) (by decide)).2.2 "id"⟩

end Furi
